import Mathlib

/-!
# Verification of the OCR request/formatting pipeline

A shallow embedding of the multi-provider OCR plugin's core logic:
the sentinel-delimited batch protocol, the template engine, the
context builder, the output router's unique-name search, and the
provider adapters' failure handling.  Strings are modelled as
`List Char`; JavaScript runtime values as the inductive `JValue`;
exceptions as `Except Unit`.
-/

set_option maxRecDepth 4000

/-- Characters treated as whitespace by the JavaScript `trim()` used in the
source (the characters that can actually occur in the modelled data). -/
def wsChar (c : Char) : Bool :=
  c = ' ' || c = '\t' || c = '\n' || c = '\r'

/-- `s.trim()`: strip leading and trailing whitespace. -/
def trimChars (l : List Char) : List Char :=
  ((l.dropWhile wsChar).reverse.dropWhile wsChar).reverse

/-- `beginsWith p l` holds when the pattern `p` occurs at the start of `l`. -/
def beginsWith : List Char → List Char → Bool
  | [], _ => true
  | _ :: _, [] => false
  | a :: as, b :: bs => a = b && beginsWith as bs

/-- Index of the first occurrence of pattern `p` in `l`, if any: the model of
scanning a string for the leftmost match of a literal pattern. -/
def findSub (p : List Char) : List Char → Option Nat
  | [] => if beginsWith p [] then some 0 else none
  | c :: rest =>
      if beginsWith p (c :: rest) then some 0
      else (findSub p rest).map (· + 1)

/-- `l` contains `p` somewhere as a contiguous substring. -/
def containsSub (l p : List Char) : Bool := (findSub p l).isSome

/-- The literal begin sentinel line of the batch protocol
(`batchFormatInstruction` in the folder-OCR command). -/
def bMark : List Char := ("--- BEGIN IMAGE: ---").toList

/-- The literal end sentinel line of the batch protocol. -/
def eMark : List Char := ("--- END IMAGE ---").toList

/-- One step of the orchestrator's
`response.matchAll(/--- BEGIN IMAGE: ---\s*([\s\S]*?)\s*--- END IMAGE ---/g)`
loop, with explicit fuel.  Each global match starts at the leftmost begin
sentinel that is still followed by an end sentinel, captures lazily up to the
first end sentinel, and (after the `\s*` borders and the source's `.trim()`)
yields the trimmed text between the two sentinels; scanning resumes after the
end sentinel. -/
def parseLoop : Nat → List Char → List (List Char)
  | 0, _ => []
  | fuel + 1, l =>
      match findSub bMark l with
      | none => []
      | some i =>
          let rest := l.drop (i + bMark.length)
          match findSub eMark rest with
          | none => []
          | some j =>
              trimChars (rest.take j) :: parseLoop fuel (rest.drop (j + eMark.length))

/-- All sentinel-delimited segments of a provider response, trimmed, in order
(the `matches` array of `extractTextFromImageFolder`). -/
def parseBlocks (l : List Char) : List (List Char) := parseLoop l.length l

/-- A single result wrapped between the two sentinel lines, exactly as the
batch format instruction requests from the model. -/
def wrapBlock (s : List Char) : List Char :=
  bMark ++ '\n' :: (s ++ '\n' :: eMark)

/-- A synthetic batch response: every result wrapped, then concatenated. -/
def joinBlocks (ss : List (List Char)) : List Char :=
  (ss.map wrapBlock).flatten

/-- Decidable check that a response contains a begin sentinel followed
(at or after its end) by an end sentinel, i.e. at least one sentinel pair. -/
def hasPairB (l : List Char) : Bool :=
  (List.range l.length).any fun i =>
    beginsWith bMark (l.drop i) &&
      (List.range l.length).any fun j =>
        beginsWith eMark (l.drop j) && decide (i + bMark.length ≤ j)

/-- Model of a JavaScript runtime value, covering the data the pipeline
manipulates. -/
inductive JValue where
  | jundefined : JValue
  | jnull : JValue
  | jbool : Bool → JValue
  | jnum : Int → JValue
  | jstr : List Char → JValue
  | jarr : List JValue → JValue
  | jobj : List (List Char × JValue) → JValue

/-- JavaScript truthiness. -/
def truthy : JValue → Bool
  | .jundefined => false
  | .jnull => false
  | .jbool b => b
  | .jnum n => decide (n ≠ 0)
  | .jstr s => decide (s ≠ [])
  | .jarr _ => true
  | .jobj _ => true

/-- First binding of a key in an object's field list (own-property lookup). -/
def jlookup : List (List Char × JValue) → List Char → Option JValue
  | [], _ => none
  | (k, v) :: rest, key => if k = key then some v else jlookup rest key

/-- `v?.key`: optional chaining.  On `null`/`undefined` it short-circuits to
`undefined`; property access on a primitive yields `undefined`. -/
def optGet (v : JValue) (key : List Char) : JValue :=
  match v with
  | .jobj fields => (jlookup fields key).getD .jundefined
  | _ => .jundefined

/-- `a ?? b`: nullish coalescing. -/
def nullish (a b : JValue) : JValue :=
  match a with
  | .jundefined => b
  | .jnull => b
  | _ => a

/-- Fuel-driven producer of decimal digits (most significant first). -/
def natDigitsGo : Nat → Nat → List Char → List Char
  | 0, _, acc => acc
  | fuel + 1, n, acc =>
      if n < 10 then Nat.digitChar n :: acc
      else natDigitsGo fuel (n / 10) (Nat.digitChar (n % 10) :: acc)

/-- Decimal numeral of a natural number, as produced by the JS template
interpolation `${counter}` and by canonical array-index strings. -/
def natDigits (n : Nat) : List Char := natDigitsGo (n + 1) n []

/-- Value of a decimal digit string (left fold), inverse to `natDigits`. -/
def valNat (ds : List Char) : Nat :=
  ds.foldl (fun a c => a * 10 + (c.toNat - 48)) 0

/-- The canonical array index denoted by `key`, when `key` is the decimal
numeral of some `i < len` (the own properties of a JS array of length `len`).  -/
def arrIndexOf (len : Nat) (key : List Char) : Option Nat :=
  (List.range len).find? (fun i => natDigits i == key)

/-- `key in v` for a truthy `v`: own-property membership; the `in` operator
throws a TypeError when `v` is a truthy primitive. -/
def jHasProp (v : JValue) (key : List Char) : Except Unit Bool :=
  match v with
  | .jobj fields => .ok (jlookup fields key).isSome
  | .jarr l => .ok ((arrIndexOf l.length key).isSome || key == ("length").toList)
  | _ => .error ()

/-- `v[key]` for a value that passed the `in` test. -/
def jPropGet (v : JValue) (key : List Char) : JValue :=
  match v with
  | .jobj fields => (jlookup fields key).getD .jundefined
  | .jarr l =>
      match arrIndexOf l.length key with
      | some i => (l[i]?).getD .jundefined
      | none => if key == ("length").toList then .jnum l.length else .jundefined
  | _ => .jundefined

/-- The dotted-path loop of `formatTemplate`'s `getValue`:
`if (value && part in value) value = value[part]; else { value = undefined; break }`;
the `in` operator throws on truthy primitives. -/
def pathWalk : JValue → List (List Char) → Except Unit JValue
  | v, [] => .ok v
  | v, part :: rest =>
      if truthy v then
        match jHasProp v part with
        | .error _ => .error ()
        | .ok true => pathWalk (jPropGet v part) rest
        | .ok false => .ok .jundefined
      else .ok .jundefined

/-- `path.split(sep)` (JavaScript semantics: `"".split(".") = [""]`). -/
def splitOnChar (sep : Char) : List Char → List (List Char)
  | [] => [[]]
  | c :: rest =>
      if c = sep then [] :: splitOnChar sep rest
      else
        match splitOnChar sep rest with
        | s :: ss => (c :: s) :: ss
        | [] => [[c]]

/-- `name.replace(/\.[^.]*$/, "")`: drop the final dot and everything after
it, when the name contains a dot; otherwise unchanged. -/
def stripExt (s : List Char) : List Char :=
  if '.' ∈ s then ((s.reverse.dropWhile (fun c => c != '.')).drop 1).reverse
  else s

/-- `name.split(".").pop()`: the last dot-separated segment (the whole string
when there is no dot). -/
def splitPop (s : List Char) : List Char :=
  (s.reverse.takeWhile (fun c => c != '.')).reverse

/-- `fname.match(/\.([^.]+)$/)`: the non-empty extension after the last dot,
or empty when the match fails. -/
def extMatch (s : List Char) : List Char :=
  let r := s.reverse.takeWhile (fun c => c != '.')
  if r.length < s.length ∧ r ≠ [] then r.reverse else []

def lowerChars (s : List Char) : List Char := s.map Char.toLower

/-- `getImageMimeType`: extension-based mime lookup of the helpers module. -/
def getImageMimeType (fileName : List Char) : List Char :=
  let ext := lowerChars (splitPop fileName)
  if ext = ("png").toList then ("image/png").toList
  else if ext = ("jpg").toList then ("image/jpeg").toList
  else if ext = ("jpeg").toList then ("image/jpeg").toList
  else if ext = ("webp").toList then ("image/webp").toList
  else if ext = ("gif").toList then ("image/gif").toList
  else if ext = ("bmp").toList then ("image/bmp").toList
  else if ext = ("svg").toList then ("image/svg+xml").toList
  else ("application/octet-stream").toList

/-- Decimal rendering of an integer (JS `String(number)` on integral values). -/
def intChars (i : Int) : List Char :=
  if i < 0 then '-' :: natDigits i.natAbs else natDigits i.toNat

/-- Stringification of an array element inside `Array.prototype.toString`
(`undefined`/`null` render empty; the pipeline's arrays are flat). -/
def jToStringAtom : JValue → List Char
  | .jundefined => []
  | .jnull => []
  | .jbool true => ("true").toList
  | .jbool false => ("false").toList
  | .jnum n => intChars n
  | .jstr s => s
  | .jarr _ => []
  | .jobj _ => ("[object Object]").toList

/-- JS `String(v)` on the values the pipeline stringifies. -/
def jToString : JValue → List Char
  | .jundefined => ("undefined").toList
  | .jnull => ("null").toList
  | .jbool true => ("true").toList
  | .jbool false => ("false").toList
  | .jnum n => intChars n
  | .jstr s => s
  | .jarr l => List.intercalate (",").toList (l.map jToStringAtom)
  | .jobj _ => ("[object Object]").toList

/-- Read a context field (`context.key`; the context object itself is always
an object, so plain access never throws). -/
def ctxGet (ctx : List (List Char × JValue)) (key : List Char) : JValue :=
  (jlookup ctx key).getD .jundefined

/-- `context.image` (used pervasively by the alias table). -/
def imageField (ctx : List (List Char × JValue)) : JValue :=
  ctxGet ctx ("image").toList

/-- `fname.replace(/\.[^.]*$/, "")` applied to a JS value: throws unless the
value is a string. -/
def jReplaceStripExt (v : JValue) : Except Unit JValue :=
  match v with
  | .jstr s => .ok (.jstr (stripExt s))
  | _ => .error ()

/-- `fname.match(/\.([^.]+)$/)`-then-extract applied to a JS value: throws
unless the value is a string. -/
def jMatchExt (v : JValue) : Except Unit JValue :=
  match v with
  | .jstr s => .ok (.jstr (extMatch s))
  | _ => .error ()

/-- The dotted paths recognized by the derived/legacy alias table. -/
def aliasPaths : List (List Char) :=
  [("model.id").toList, ("model.name").toList, ("provider.name").toList,
   ("provider.id").toList, ("provider.type").toList, ("image.filename").toList,
   ("image.name").toList, ("image.extension").toList, ("image.path").toList,
   ("image.size").toList, ("image.dimensions").toList, ("image.width").toList,
   ("image.height").toList, ("image.created").toList, ("image.modified").toList,
   ("image.camera.make").toList, ("image.camera.model").toList,
   ("image.lens.model").toList, ("image.iso").toList, ("image.exposure").toList,
   ("image.aperture").toList, ("image.focalLength").toList,
   ("image.orientation").toList, ("image.gps.latitude").toList,
   ("image.gps.longitude").toList, ("image.gps.altitude").toList]

/-- The derived/legacy alias `switch` of `formatTemplate`'s `getValue`,
consulted when the dotted-path traversal came back undefined; the default
branch returns the empty string. -/
def aliasEval (ctx : List (List Char × JValue)) (path : List Char) :
    Except Unit JValue :=
  if path = ("model.id").toList then
    .ok (nullish (optGet (ctxGet ctx ("model").toList) ("id").toList)
      (nullish (ctxGet ctx ("modelId").toList)
        (nullish (ctxGet ctx ("model").toList) (.jstr []))))
  else if path = ("model.name").toList then
    .ok (nullish (optGet (ctxGet ctx ("model").toList) ("name").toList)
      (nullish (ctxGet ctx ("modelName").toList)
        (nullish (ctxGet ctx ("model").toList) (.jstr []))))
  else if path = ("provider.name").toList then
    .ok (nullish (optGet (ctxGet ctx ("provider").toList) ("name").toList)
      (nullish (ctxGet ctx ("providerName").toList) (.jstr [])))
  else if path = ("provider.id").toList then
    .ok (nullish (optGet (ctxGet ctx ("provider").toList) ("id").toList)
      (nullish (ctxGet ctx ("providerId").toList)
        (nullish (ctxGet ctx ("provider").toList) (.jstr []))))
  else if path = ("provider.type").toList then
    .ok (nullish (optGet (ctxGet ctx ("provider").toList) ("type").toList)
      (nullish (ctxGet ctx ("providerType").toList) (.jstr [])))
  else if path = ("image.filename").toList then
    .ok (nullish (optGet (imageField ctx) ("filename").toList)
      (nullish (optGet (imageField ctx) ("name").toList) (.jstr [])))
  else if path = ("image.name").toList then
    jReplaceStripExt (nullish (optGet (imageField ctx) ("filename").toList)
      (nullish (optGet (imageField ctx) ("name").toList) (.jstr [])))
  else if path = ("image.extension").toList then
    jMatchExt (nullish (optGet (imageField ctx) ("filename").toList)
      (nullish (optGet (imageField ctx) ("name").toList) (.jstr [])))
  else if path = ("image.path").toList then
    .ok (nullish (optGet (imageField ctx) ("path").toList)
      (nullish (optGet (imageField ctx) ("source").toList) (.jstr [])))
  else if path = ("image.size").toList then
    .ok (nullish (optGet (imageField ctx) ("size").toList) (.jstr []))
  else if path = ("image.dimensions").toList then
    .ok (if truthy (optGet (imageField ctx) ("width").toList)
          && truthy (optGet (imageField ctx) ("height").toList) then
        .jstr (jToString (optGet (imageField ctx) ("width").toList) ++
          'x' :: jToString (optGet (imageField ctx) ("height").toList))
      else .jstr [])
  else if path = ("image.width").toList then
    .ok (nullish (optGet (imageField ctx) ("width").toList) (.jstr []))
  else if path = ("image.height").toList then
    .ok (nullish (optGet (imageField ctx) ("height").toList) (.jstr []))
  else if path = ("image.created").toList then
    .ok (nullish (optGet (imageField ctx) ("created").toList) (.jstr []))
  else if path = ("image.modified").toList then
    .ok (nullish (optGet (imageField ctx) ("modified").toList) (.jstr []))
  else if path = ("image.camera.make").toList then
    .ok (nullish (optGet (optGet (imageField ctx) ("camera").toList) ("make").toList)
      (.jstr []))
  else if path = ("image.camera.model").toList then
    .ok (nullish (optGet (optGet (imageField ctx) ("camera").toList) ("model").toList)
      (.jstr []))
  else if path = ("image.lens.model").toList then
    .ok (nullish (optGet (optGet (imageField ctx) ("lens").toList) ("model").toList)
      (.jstr []))
  else if path = ("image.iso").toList then
    .ok (nullish (optGet (imageField ctx) ("iso").toList) (.jstr []))
  else if path = ("image.exposure").toList then
    .ok (nullish (optGet (imageField ctx) ("exposure").toList) (.jstr []))
  else if path = ("image.aperture").toList then
    .ok (nullish (optGet (imageField ctx) ("aperture").toList) (.jstr []))
  else if path = ("image.focalLength").toList then
    .ok (nullish (optGet (imageField ctx) ("focalLength").toList) (.jstr []))
  else if path = ("image.orientation").toList then
    .ok (nullish (optGet (imageField ctx) ("orientation").toList) (.jstr []))
  else if path = ("image.gps.latitude").toList then
    .ok (nullish (optGet (optGet (imageField ctx) ("gps").toList) ("latitude").toList)
      (.jstr []))
  else if path = ("image.gps.longitude").toList then
    .ok (nullish (optGet (optGet (imageField ctx) ("gps").toList) ("longitude").toList)
      (.jstr []))
  else if path = ("image.gps.altitude").toList then
    .ok (nullish (optGet (optGet (imageField ctx) ("gps").toList) ("altitude").toList)
      (.jstr []))
  else .ok (.jstr [])

/-- `getValue` of `formatTemplate`: dotted-path traversal into the context,
then the alias table when the traversal came back undefined. -/
def getValue (ctx : List (List Char × JValue)) (path : List Char) :
    Except Unit JValue := do
  let v ← pathWalk (.jobj ctx) (splitOnChar '.' path)
  match v with
  | .jundefined => aliasEval ctx path
  | other => .ok other

/-- The date-format-only character class `/^[YMDHms\-:/ ]+$/`. -/
def dateClassChar (c : Char) : Bool :=
  c = 'Y' || c = 'M' || c = 'D' || c = 'H' || c = 'm' || c = 's' ||
    c = '-' || c = ':' || c = '/' || c = ' '

def dateClassB (s : List Char) : Bool :=
  decide (s ≠ []) && s.all dateClassChar

/-- Resolve one `{{expr}}` token: trim, `date:` prefix, bare date pattern,
dotted lookup with alias fallback, and the final
`val != null ? String(val) : ""`.  `mfmt` models `window.moment().format`. -/
def evalToken (mfmt : List Char → List Char) (ctx : List (List Char × JValue))
    (exprRaw : List Char) : Except Unit (List Char) :=
  let expr := trimChars exprRaw
  if beginsWith ("date:").toList expr then
    .ok (mfmt (trimChars (expr.drop 5)))
  else if dateClassB expr then
    .ok (mfmt expr)
  else do
    let v ← getValue ctx expr
    match v with
    | .jundefined => .ok []
    | .jnull => .ok []
    | other => .ok (jToString other)

/-- Scan for the `}}` closing a token: the lazy group `(.*?)` of
`/{{(.*?)}}/` cannot cross a newline and stops at the first `}}`. -/
def findCloser : List Char → Option Nat
  | [] => none
  | c :: rest =>
      if c = '\x7d' ∧ rest.head? = some '\x7d' then some 0
      else if c = '\n' then none
      else (findCloser rest).map (· + 1)

/-- The global `template.replace(/{{(.*?)}}/g, cb)` scanner, with fuel: a
token is opened by two braces, closed by the first newline-free `}}`; a
brace pair with no closer is emitted verbatim and scanning resumes one
character later, exactly as the regex engine does. -/
def fmtGo (mfmt : List Char → List Char) (ctx : List (List Char × JValue)) :
    Nat → List Char → Except Unit (List Char)
  | _, [] => .ok []
  | 0, _ :: _ => .ok []
  | fuel + 1, c :: rest =>
      if c = '\x7b' ∧ rest.head? = some '\x7b' then
        match findCloser rest.tail with
        | some q => do
            let repl ← evalToken mfmt ctx (rest.tail.take q)
            let tail ← fmtGo mfmt ctx fuel (rest.tail.drop (q + 2))
            .ok (repl ++ tail)
        | none => do
            let tail ← fmtGo mfmt ctx fuel rest
            .ok ('\x7b' :: tail)
      else do
        let tail ← fmtGo mfmt ctx fuel rest
        .ok (c :: tail)

/-- `formatTemplate(template, context)`: resolve every `{{...}}` token in the
template against the context; a thrown TypeError propagates as `.error`. -/
def formatTemplate (mfmt : List Char → List Char)
    (ctx : List (List Char × JValue)) (template : List Char) :
    Except Unit (List Char) :=
  fmtGo mfmt ctx template.length template

/-- Spread-update of a record: `{...r, key: v}` (lookup-equivalent form). -/
def setField (r : List (List Char × JValue)) (k : List Char) (v : JValue) :
    List (List Char × JValue) :=
  r.filter (fun p => p.1 != k) ++ [(k, v)]

/-- The OCR result being formatted: one string (single mode) or the parsed
match array (batch mode). -/
inductive ContentChoice where
  | single : List Char → ContentChoice
  | batch : List (List Char) → ContentChoice

/-- `[a, b, c].filter(Boolean).join("")` on strings: empty segments are
dropped, the rest concatenated. -/
def joinTruthy (xs : List (List Char)) : List Char :=
  (xs.filter (fun s => !s.isEmpty)).flatten

/-- Output of JS string coercion of the content slot in the single-mode
composition (`content` may still be the match array there). -/
def contentChars : ContentChoice → List Char
  | .single s => s
  | .batch items => List.intercalate (",").toList items

/-- The template settings consumed by `applyFormatting` (absent settings are
already defaulted to the empty string by `|| ""`). -/
structure FmtSettings where
  headerTemplate : List Char := []
  footerTemplate : List Char := []
  batchHeaderTemplate : List Char := []
  batchFooterTemplate : List Char := []
  batchImageHeaderTemplate : List Char := []
  batchImageFooterTemplate : List Char := []

/-- The per-image context of `applyFormatting`'s batch branch:
`{...context, image: images[i], imageIndex: i+1, imageTotal: total}`. -/
def imgContext (ctx : List (List Char × JValue)) (imgs : List JValue)
    (i : Nat) : List (List Char × JValue) :=
  setField
    (setField (setField ctx ("image").toList ((imgs[i]?).getD .jundefined))
      ("imageIndex").toList (.jnum (i + 1)))
    ("imageTotal").toList (.jnum imgs.length)

/-- The batch branch's `content.map((imgText, i) => ...)`: per-image header
and footer formatted against the image-scoped context. -/
def batchItems (mfmt : List Char → List Char) (st : FmtSettings)
    (ctx : List (List Char × JValue)) (imgs : List JValue) :
    Nat → List (List Char) → Except Unit (List (List Char))
  | _, [] => .ok []
  | i, t :: ts => do
      let ih ← formatTemplate mfmt (imgContext ctx imgs i) st.batchImageHeaderTemplate
      let ifo ← formatTemplate mfmt (imgContext ctx imgs i) st.batchImageFooterTemplate
      let rest ← batchItems mfmt st ctx imgs (i + 1) ts
      .ok (joinTruthy [ih, t, ifo] :: rest)

/-- `applyFormatting`: batch composition when `context.images` is an array
and the content is an array, single composition otherwise. -/
def applyFormatting (mfmt : List Char → List Char) (st : FmtSettings)
    (content : ContentChoice) (ctx : List (List Char × JValue)) :
    Except Unit (List Char) :=
  match jlookup ctx ("images").toList, content with
  | some (.jarr imgs), .batch items => do
      let bh ← formatTemplate mfmt ctx st.batchHeaderTemplate
      let bf ← formatTemplate mfmt ctx st.batchFooterTemplate
      let formatted ← batchItems mfmt st ctx imgs 0 items
      .ok (joinTruthy (bh :: formatted ++ [bf]))
  | _, _ => do
      let h ← formatTemplate mfmt ctx st.headerTemplate
      let f ← formatTemplate mfmt ctx st.footerTemplate
      .ok (joinTruthy [h, contentChars content, f])

/-- An `images[]` entry passed to `buildOCRContext` (the caller-supplied
descriptor shape of the batch path). -/
structure BImg where
  name : List Char
  extension : List Char
  path : List Char
  size : Int
  mime : List Char
  width : Option Int := none
  height : Option Int := none
  base64 : Option (List Char) := none

/-- Optional number as a JS field value (absent data is `undefined`). -/
def optNum : Option Int → JValue
  | some n => .jnum n
  | none => .jundefined

/-- Optional string as a JS field value. -/
def optStr : Option (List Char) → JValue
  | some s => .jstr s
  | none => .jundefined

/-- One annotated entry of the `images` array built by `buildOCRContext`'s
batch branch: name re-stripped, extension defaulted from the name, and
1-based `index` / `total` attached. -/
def bimgEntryJ (total : Nat) (i : Nat) (b : BImg) : JValue :=
  .jobj
    [(("name").toList, .jstr (stripExt b.name)),
     (("extension").toList,
       .jstr (if b.extension.isEmpty then splitPop b.name else b.extension)),
     (("path").toList, .jstr b.path),
     (("size").toList, .jnum b.size),
     (("mime").toList, .jstr b.mime),
     (("width").toList, optNum b.width),
     (("height").toList, optNum b.height),
     (("file").toList, .jundefined),
     (("base64").toList, optStr b.base64),
     (("index").toList, .jnum (i + 1)),
     (("total").toList, .jnum total)]

/-- The spread `{...image}` of an `images[0]` descriptor taken verbatim by
the single branch (no `index`/`total`, no re-stripping). -/
def bimgSpreadJ (b : BImg) : JValue :=
  .jobj
    [(("name").toList, .jstr b.name),
     (("extension").toList, .jstr b.extension),
     (("path").toList, .jstr b.path),
     (("size").toList, .jnum b.size),
     (("mime").toList, .jstr b.mime),
     (("width").toList, optNum b.width),
     (("height").toList, optNum b.height),
     (("base64").toList, optStr b.base64)]

/-- Index-aware map used for the `images.map((img, i) => ...)` annotation. -/
def mapIdxFrom (f : Nat → BImg → JValue) : Nat → List BImg → List JValue
  | _, [] => []
  | i, b :: bs => f i b :: mapIdxFrom f (i + 1) bs

/-- `buildOCRContext`: provider/model/prompt base, then an annotated
`images` array when more than one descriptor is given, else a verbatim
single `image` object when a single descriptor (or a one-element array) is
given, else the bare base. -/
def buildOCRContext (pid pname ptype mid mname prompt : List Char)
    (images : Option (List BImg))
    (singleImage : Option (List (List Char × JValue))) :
    List (List Char × JValue) :=
  let base : List (List Char × JValue) :=
    [(("provider").toList,
       .jobj [(("id").toList, .jstr pid), (("name").toList, .jstr pname),
         (("type").toList, .jstr ptype)]),
     (("model").toList,
       .jobj [(("id").toList, .jstr mid), (("name").toList, .jstr mname)]),
     (("prompt").toList, .jstr prompt)]
  match images with
  | some l =>
      if 1 < l.length then
        base ++ [(("images").toList, .jarr (mapIdxFrom (bimgEntryJ l.length) 0 l))]
      else
        match singleImage with
        | some srec => base ++ [(("image").toList, .jobj srec)]
        | none =>
            match l with
            | [b] => base ++ [(("image").toList, bimgSpreadJ b)]
            | _ => base
  | none =>
      match singleImage with
      | some srec => base ++ [(("image").toList, .jobj srec)]
      | none => base

/-- A `PreparedImage` as assembled by the folder-OCR command. -/
structure PImg where
  name : List Char
  base64 : List Char
  mime : List Char
  size : Int
  source : List Char

/-- The batch descriptor the folder-OCR command derives from one prepared
image before calling `buildOCRContext`. -/
def pimgDescr (p : PImg) : BImg :=
  { name := stripExt p.name,
    extension := if '.' ∈ p.name then splitPop p.name else [],
    path := p.source,
    size := p.size,
    mime := if p.mime.isEmpty then getImageMimeType p.name else p.mime }

/-- The `singleImage` record the folder-OCR command builds through
`prepared[0]?.` optional chains (fields are `undefined` when the list is
empty; `mime` falls back to the extension lookup). -/
def pimgSingleRec (prepared : List PImg) : List (List Char × JValue) :=
  match prepared.head? with
  | some p =>
      [(("name").toList, .jstr (stripExt p.name)),
       (("extension").toList,
         .jstr (if '.' ∈ p.name then splitPop p.name else [])),
       (("path").toList, .jstr p.source),
       (("size").toList, .jnum p.size),
       (("mime").toList,
         .jstr (if p.mime.isEmpty then getImageMimeType p.name else p.mime))]
  | none =>
      [(("name").toList, .jundefined),
       (("extension").toList, .jstr []),
       (("path").toList, .jundefined),
       (("size").toList, .jundefined),
       (("mime").toList, .jstr (getImageMimeType []))]

/-- The folder-OCR command after the provider call: parse the sentinel
matches, then build content and context — batch when more than one match,
otherwise single with the lone match or the whole trimmed response. -/
def extractFolderResult (response : List Char) (prepared : List PImg)
    (pid pname ptype mid mname batchPrompt : List Char) :
    ContentChoice × List (List Char × JValue) :=
  let ms := parseBlocks response
  if 1 < ms.length then
    (.batch ms,
      buildOCRContext pid pname ptype mid mname batchPrompt
        (some (prepared.map pimgDescr)) none)
  else
    (.single (match ms with
      | [m] => m
      | _ => trimChars response),
      buildOCRContext pid pname ptype mid mname batchPrompt
        none (some (pimgSingleRec prepared)))

/-- `folder ? folder + "/" + file : file` path composition. -/
def mkPath (folder base : List Char) : List Char :=
  if folder.isEmpty then base else folder ++ '/' :: base

def mdExt : List Char := (".md").toList

/-- The while-loop of the unique-name search in `handleExtractedContent`:
while the candidate path exists, move to `base N.md` with the next counter.
Fuel bounds the walk; the wrapper supplies enough to clear any finite vault. -/
def uniqueLoop (vault : List (List Char)) (folder base : List Char) :
    Nat → Nat → List Char → List Char
  | 0, _, current => current
  | fuel + 1, counter, current =>
      if current ∈ vault then
        uniqueLoop vault folder base fuel (counter + 1)
          (mkPath folder (base ++ ' ' :: natDigits counter ++ mdExt))
      else current

/-- The unique-file search with append disabled: candidates `name.md`,
`name 1.md`, `name 2.md`, … against the vault's existing paths. -/
def findUnique (vault : List (List Char)) (folder name : List Char) : List Char :=
  uniqueLoop vault folder name (vault.length + 1) 1 (mkPath folder (name ++ mdExt))

inductive OutputAction where
  | appendTo : List Char → OutputAction
  | createNew : List Char → OutputAction

/-- The file-mode decision of `handleExtractedContent` after templating:
append when the path exists and append-mode is on; search a unique name when
it exists and append-mode is off; create directly otherwise. -/
def outputPlan (vault : List (List Char)) (appendIfExists : Bool)
    (folder name : List Char) : OutputAction :=
  let path := mkPath folder (name ++ mdExt)
  if path ∈ vault then
    if appendIfExists then .appendTo path
    else .createNew (findUnique vault folder name)
  else .createNew path

/-- The backend tag held by `OpenAIProvider` (the `custom` provider is
constructed with the `openai` tag). -/
inductive ProviderTag where
  | openai
  | ollama
  | lmstudio

/-- The request headers built by `OpenAIProvider.process` and
`extractTextFromBase64`: content type always; the bearer authorization is
attached only when the tag is the hosted `openai` backend. -/
def requestHeaders (tag : ProviderTag) (apiKey : List Char) :
    List (List Char × List Char) :=
  let base := [(("Content-Type").toList, ("application/json").toList)]
  match tag with
  | .openai => base ++ [(("Authorization").toList, ("Bearer ").toList ++ apiKey)]
  | .ollama => base
  | .lmstudio => base

/-- Abstracted transport outcome of one `requestUrl` call: the request threw
(network failure or non-2xx status), the body was not valid JSON, or the
body parsed to a JS value. -/
inductive WireOutcome where
  | netfail : WireOutcome
  | malformed : WireOutcome
  | parsed : JValue → WireOutcome

/-- Plain property access `v.key` (throws on `null`/`undefined`). -/
def jPlainGet (v : JValue) (key : List Char) : Except Unit JValue :=
  match v with
  | .jundefined => .error ()
  | .jnull => .error ()
  | .jobj f => .ok ((jlookup f key).getD .jundefined)
  | _ => .ok .jundefined

/-- Plain element access `v[0]` (throws on `null`/`undefined`). -/
def jIndex0 (v : JValue) : Except Unit JValue :=
  match v with
  | .jundefined => .error ()
  | .jnull => .error ()
  | .jarr l => .ok ((l[0]?).getD .jundefined)
  | .jstr [] => .ok .jundefined
  | .jstr (c :: _) => .ok (.jstr [c])
  | .jobj f => .ok ((jlookup f ("0").toList).getD .jundefined)
  | _ => .ok .jundefined

/-- Optional element access `v?.[0]`. -/
def optIndex0 (v : JValue) : JValue :=
  match v with
  | .jarr l => (l[0]?).getD .jundefined
  | .jstr (c :: _) => .jstr [c]
  | .jobj f => (jlookup f ("0").toList).getD .jundefined
  | _ => .jundefined

def isArr : JValue → Bool
  | .jarr _ => true
  | _ => false

/-- `content?.trim()`: short-circuits on nullish content, throws unless the
content is a string. -/
def jTrim (v : JValue) : Except Unit (Option (List Char)) :=
  match v with
  | .jundefined => .ok none
  | .jnull => .ok none
  | .jstr s => .ok (some (trimChars s))
  | _ => .error ()

/-- The structural response predicate of `OpenAIProvider.process`:
`!!d.message?.content` for ollama, `Array.isArray(d.choices)` otherwise. -/
def openaiValidB (tag : ProviderTag) (d : JValue) : Except Unit Bool :=
  match tag with
  | .ollama => do
      let m ← jPlainGet d ("message").toList
      .ok (truthy (optGet m ("content").toList))
  | _ => do
      let c ← jPlainGet d ("choices").toList
      .ok (isArr c)

/-- Content extraction of `OpenAIProvider.process`:
`data.message?.content?.trim()` for ollama,
`data.choices?.[0]?.message?.content?.trim()` otherwise. -/
def openaiExtract (tag : ProviderTag) (d : JValue) :
    Except Unit (Option (List Char)) :=
  match tag with
  | .ollama => do
      let m ← jPlainGet d ("message").toList
      jTrim (optGet m ("content").toList)
  | _ => do
      let c ← jPlainGet d ("choices").toList
      jTrim (optGet (optGet (optIndex0 c) ("message").toList) ("content").toList)

/-- Result and diagnostic flag of `OpenAIProvider.process`: the catch-all
turns every thrown error into `""` plus a console diagnostic; empty or
missing content warns and yields `""`; only valid non-empty content is
returned (already trimmed). -/
def openaiProcessResult (tag : ProviderTag) (o : WireOutcome) :
    List Char × Bool :=
  match o with
  | .netfail => ([], true)
  | .malformed => ([], true)
  | .parsed d =>
      match openaiValidB tag d with
      | .error _ => ([], true)
      | .ok false => ([], true)
      | .ok true =>
          match openaiExtract tag d with
          | .error _ => ([], true)
          | .ok none => ([], true)
          | .ok (some s) => if s.isEmpty then ([], true) else (s, false)

/-- The structural response predicate of `GeminiProvider.process`:
`Array.isArray(d.candidates) && !!d.candidates[0]?.content?.parts`. -/
def geminiValidB (d : JValue) : Except Unit Bool := do
  let c ← jPlainGet d ("candidates").toList
  if isArr c then
    .ok (truthy (optGet (optGet (optIndex0 c) ("content").toList) ("parts").toList))
  else
    .ok false

/-- Content extraction of `GeminiProvider.process`:
`data.candidates[0]?.content?.parts?.[0]?.text?.trim()`. -/
def geminiExtract (d : JValue) : Except Unit (Option (List Char)) := do
  let c ← jPlainGet d ("candidates").toList
  let e0 ← jIndex0 c
  let parts := optGet (optGet e0 ("content").toList) ("parts").toList
  jTrim (optGet (optIndex0 parts) ("text").toList)

/-- Result and diagnostic flag of `GeminiProvider.process` (same catch-all
failure handling as the OpenAI-compatible adapter). -/
def geminiProcessResult (o : WireOutcome) : List Char × Bool :=
  match o with
  | .netfail => ([], true)
  | .malformed => ([], true)
  | .parsed d =>
      match geminiValidB d with
      | .error _ => ([], true)
      | .ok false => ([], true)
      | .ok true =>
          match geminiExtract d with
          | .error _ => ([], true)
          | .ok none => ([], true)
          | .ok (some s) => if s.isEmpty then ([], true) else (s, false)

/-- The `N`-th collision candidate `name N.md` (under the folder). -/
def candPath (folder name : List Char) (n : Nat) : List Char :=
  mkPath folder (name ++ ' ' :: natDigits n ++ mdExt)

/-- The sequence of paths the unique-name loop examines from a given state:
first the current candidate, then `base (counter+k).md`. -/
def seqFrom (folder base : List Char) (counter : Nat) (current : List Char) :
    Nat → List Char
  | 0 => current
  | k + 1 => mkPath folder (base ++ ' ' :: natDigits (counter + k) ++ mdExt)

/-- A template consisting of exactly one token over the expression `e`. -/
def tokenOf (e : List Char) : List Char :=
  '\x7b' :: '\x7b' :: (e ++ ['\x7d', '\x7d'])

/-- A concrete prepared-image list used by concrete instantiations. -/
def samplePrepared : List PImg :=
  [⟨("a.png").toList, ("QQ==").toList, ("image/png").toList, 3, ("a.png").toList⟩,
   ⟨("b.png").toList, ("QQ==").toList, ("image/png").toList, 3, ("b.png").toList⟩,
   ⟨("c.png").toList, ("QQ==").toList, ("image/png").toList, 3, ("c.png").toList⟩]

/-- A concrete response containing exactly one sentinel pair. -/
def sampleResponse : List Char := wrapBlock (("hello").toList)

theorem beginsWith_iff (p l : List Char) :
    beginsWith p l = true ↔ ∃ t, p ++ t = l := by
  induction p generalizing l with
  | nil => simp [beginsWith]
  | cons a as ih =>
      cases l with
      | nil => simp [beginsWith]
      | cons b bs =>
          simp only [beginsWith, Bool.and_eq_true, decide_eq_true_eq, ih]
          constructor
          · rintro ⟨rfl, t, rfl⟩; exact ⟨t, rfl⟩
          · rintro ⟨t, h⟩
            injection h with h1 h2
            exact ⟨h1, t, h2⟩

theorem beginsWith_append (p t : List Char) :
    beginsWith p (p ++ t) = true :=
  (beginsWith_iff p (p ++ t)).2 ⟨t, rfl⟩

theorem beginsWith_length {p l : List Char} (h : beginsWith p l = true) :
    p.length ≤ l.length := by
  obtain ⟨t, rfl⟩ := (beginsWith_iff p l).1 h
  simp

theorem beginsWith_nil {p : List Char} (hp : p ≠ []) :
    beginsWith p [] = false := by
  cases p with
  | nil => exact absurd rfl hp
  | cons a as => rfl

theorem findSub_nil (p : List Char) (hp : p ≠ []) : findSub p [] = none := by
  simp [findSub, beginsWith_nil hp]

theorem findSub_zero {p l : List Char} (h : beginsWith p l = true) :
    findSub p l = some 0 := by
  cases l <;> simp [findSub, h]

/-- Characterization of `findSub`: it returns the least index at which the
pattern occurs. -/
theorem findSub_eq_some_iff {p l : List Char} {m : Nat} :
    findSub p l = some m ↔
      beginsWith p (l.drop m) = true ∧
        ∀ k, k < m → beginsWith p (l.drop k) = false := by
  induction l generalizing m with
  | nil =>
      by_cases hb : beginsWith p [] = true
      · constructor
        · intro h
          simp [findSub, hb] at h
          subst h
          exact ⟨hb, by omega⟩
        · rintro ⟨h1, hmin⟩
          cases m with
          | zero => simp [findSub, hb]
          | succ m' =>
              have h0 := hmin 0 (by omega)
              simp at h0
              exact absurd hb (by simp [h0])
      · have hbf : beginsWith p [] = false := by simpa using hb
        constructor
        · intro h
          simp [findSub, hbf] at h
        · rintro ⟨h1, _⟩
          simp at h1
          exact absurd h1 hb
  | cons c rest ih =>
      by_cases hb : beginsWith p (c :: rest) = true
      · constructor
        · intro h
          simp [findSub, hb] at h
          subst h
          exact ⟨by simpa using hb, by omega⟩
        · rintro ⟨h1, hmin⟩
          cases m with
          | zero => simp [findSub, hb]
          | succ m' =>
              have h0 := hmin 0 (by omega)
              simp at h0
              exact absurd hb (by simp [h0])
      · have hbf : beginsWith p (c :: rest) = false := by simpa using hb
        constructor
        · intro h
          simp only [findSub, hbf, Bool.false_eq_true, if_false] at h
          cases hfs : findSub p rest with
          | none => rw [hfs] at h; simp at h
          | some m' =>
              rw [hfs] at h
              simp at h
              subst h
              obtain ⟨h1, h2⟩ := ih.1 hfs
              refine ⟨by simpa using h1, ?_⟩
              intro k hk
              cases k with
              | zero => simpa using hbf
              | succ k' => simpa using h2 k' (by omega)
        · rintro ⟨h1, h2⟩
          cases m with
          | zero =>
              simp at h1
              exact absurd h1 hb
          | succ m' =>
              have hrec : findSub p rest = some m' := by
                apply ih.2
                constructor
                · simpa using h1
                · intro k hk
                  simpa using h2 (k + 1) (by omega)
              simp [findSub, hbf, hrec]

theorem findSub_eq_none_iff {p l : List Char} :
    findSub p l = none ↔ ∀ k, beginsWith p (l.drop k) = false := by
  induction l with
  | nil =>
      by_cases hb : beginsWith p [] = true
      · constructor
        · intro h; simp [findSub, hb] at h
        · intro h
          have h0 := h 0
          simp at h0
          exact absurd hb (by simp [h0])
      · have hbf : beginsWith p [] = false := by simpa using hb
        constructor
        · intro _ k; simpa using hbf
        · intro _; simp [findSub, hbf]
  | cons c rest ih =>
      by_cases hb : beginsWith p (c :: rest) = true
      · constructor
        · intro h; simp [findSub, hb] at h
        · intro h
          have h0 := h 0
          simp at h0
          exact absurd hb (by simp [h0])
      · have hbf : beginsWith p (c :: rest) = false := by simpa using hb
        constructor
        · intro h k
          have hrest : findSub p rest = none := by
            simp only [findSub, hbf, Bool.false_eq_true, if_false] at h
            cases hfs : findSub p rest with
            | none => rfl
            | some m => rw [hfs] at h; simp at h
          cases k with
          | zero => simpa using hbf
          | succ k' => simpa using ih.1 hrest k'
        · intro h
          have hrest : findSub p rest = none := by
            apply ih.2
            intro k
            simpa using h (k + 1)
          simp [findSub, hbf, hrest]

theorem containsSub_false_iff {l p : List Char} :
    containsSub l p = false ↔ ∀ k, beginsWith p (l.drop k) = false := by
  unfold containsSub
  cases hfs : findSub p l with
  | none => simpa using findSub_eq_none_iff.1 hfs
  | some m =>
      simp only [Option.isSome_some, Bool.true_eq_false, false_iff]
      intro h
      have := (findSub_eq_some_iff.1 hfs).1
      rw [h m] at this
      exact absurd this (by simp)

theorem beginsWith_getElem {p l : List Char} (h : beginsWith p l = true)
    {j : Nat} (hj : j < p.length) : l[j]? = p[j]? := by
  obtain ⟨t, rfl⟩ := (beginsWith_iff p l).1 h
  rw [List.getElem?_append, if_pos hj]

theorem beginsWith_of_append_le {p a b : List Char}
    (h : beginsWith p (a ++ b) = true) (hle : p.length ≤ a.length) :
    beginsWith p a = true := by
  obtain ⟨t, ht⟩ := (beginsWith_iff p (a ++ b)).1 h
  apply (beginsWith_iff p a).2
  refine ⟨a.drop p.length, ?_⟩
  have hp : p = a.take p.length := by
    have h1 : (p ++ t).take p.length = p := by
      simp
    have h2 : ((a ++ b).take p.length) = a.take p.length :=
      List.take_append_of_le_length hle
    have h3 := congrArg (List.take p.length) ht
    rw [h1, h2] at h3
    exact h3
  have hcong := congrArg (fun x => x ++ a.drop p.length) hp
  simp only at hcong
  rw [List.take_append_drop] at hcong
  exact hcong

theorem trim_cons_ws {c : Char} (hc : wsChar c = true) (l : List Char) :
    trimChars (c :: l) = trimChars l := by
  simp [trimChars, List.dropWhile_cons, hc]

theorem trim_append_ws {c : Char} (hc : wsChar c = true) (l : List Char) :
    trimChars (l ++ [c]) = trimChars l := by
  unfold trimChars
  rw [List.dropWhile_append]
  cases hd : (l.dropWhile wsChar).isEmpty with
  | true =>
      rw [if_pos rfl]
      simp [List.dropWhile_cons, hc, List.isEmpty_iff.1 hd]
  | false =>
      rw [if_neg (by simp)]
      rw [List.reverse_append]
      simp [List.dropWhile_cons, hc]

theorem parseLoop_nil (fuel : Nat) : parseLoop fuel [] = [] := by
  cases fuel with
  | zero => rfl
  | succ f =>
      simp only [parseLoop, findSub_nil bMark (by decide)]

theorem parseLoop_congr :
    ∀ f₁ f₂ (l : List Char), l.length ≤ f₁ → l.length ≤ f₂ →
      parseLoop f₁ l = parseLoop f₂ l := by
  intro f₁
  induction f₁ with
  | zero =>
      intro f₂ l h1 _
      have : l = [] := List.eq_nil_of_length_eq_zero (by omega)
      subst this
      rw [parseLoop_nil, parseLoop_nil]
  | succ f ih =>
      intro f₂ l h1 h2
      cases f₂ with
      | zero =>
          have : l = [] := List.eq_nil_of_length_eq_zero (by omega)
          subst this
          rw [parseLoop_nil, parseLoop_nil]
      | succ f' =>
          simp only [parseLoop]
          cases hb : findSub bMark l with
          | none => rfl
          | some i =>
              simp only
              cases he : findSub eMark (l.drop (i + bMark.length)) with
              | none => rfl
              | some j =>
                  simp only [List.cons.injEq, true_and]
                  have hbl : bMark.length ≤ (l.drop i).length :=
                    beginsWith_length (findSub_eq_some_iff.1 hb).1
                  have hel : eMark.length ≤ ((l.drop (i + bMark.length)).drop j).length :=
                    beginsWith_length (findSub_eq_some_iff.1 he).1
                  have hlen : ((l.drop (i + bMark.length)).drop (j + eMark.length)).length
                      ≤ l.length - bMark.length := by
                    simp only [List.length_drop] at *
                    omega
                  have hbm : (20 : Nat) ≤ bMark.length := by decide
                  apply ih
                  · simp only [List.length_drop] at *
                    omega
                  · simp only [List.length_drop] at *
                    omega

theorem parseBlocks_nil : parseBlocks [] = [] := rfl

/-- Unfold one full step of the sentinel scanner at adequate fuel. -/
theorem parseBlocks_unfold (l : List Char) :
    parseBlocks l =
      match findSub bMark l with
      | none => []
      | some i =>
          match findSub eMark (l.drop (i + bMark.length)) with
          | none => []
          | some j =>
              trimChars ((l.drop (i + bMark.length)).take j) ::
                parseBlocks ((l.drop (i + bMark.length)).drop (j + eMark.length)) := by
  unfold parseBlocks
  cases hl : l.length with
  | zero =>
      have : l = [] := List.eq_nil_of_length_eq_zero hl
      subst this
      simp [parseLoop, findSub_nil bMark (by decide)]
  | succ n =>
      simp only [parseLoop]
      cases hb : findSub bMark l with
      | none => rfl
      | some i =>
          simp only
          cases he : findSub eMark (l.drop (i + bMark.length)) with
          | none => rfl
          | some j =>
              simp only [List.cons.injEq, true_and]
              have hbl : bMark.length ≤ (l.drop i).length :=
                beginsWith_length (findSub_eq_some_iff.1 hb).1
              have hel : eMark.length ≤ ((l.drop (i + bMark.length)).drop j).length :=
                beginsWith_length (findSub_eq_some_iff.1 he).1
              have hbm : (20 : Nat) ≤ bMark.length := by decide
              apply parseLoop_congr
              · simp only [List.length_drop] at *
                omega
              · exact Nat.le_refl _

theorem parseBlocks_found {l : List Char} {i j : Nat}
    (hb : findSub bMark l = some i)
    (he : findSub eMark (l.drop (i + bMark.length)) = some j) :
    parseBlocks l =
      trimChars ((l.drop (i + bMark.length)).take j) ::
        parseBlocks ((l.drop (i + bMark.length)).drop (j + eMark.length)) := by
  rw [parseBlocks_unfold]
  simp only [hb, he]

theorem parseBlocks_no_begin {l : List Char} (hb : findSub bMark l = none) :
    parseBlocks l = [] := by
  rw [parseBlocks_unfold]
  simp only [hb]

theorem parseBlocks_no_end {l : List Char} {i : Nat}
    (hb : findSub bMark l = some i)
    (he : findSub eMark (l.drop (i + bMark.length)) = none) :
    parseBlocks l = [] := by
  rw [parseBlocks_unfold]
  simp only [hb, he]

/-- The scanner consumes one well-formed wrapped block and recurses on the
remainder, provided the block text contains no end sentinel. -/
theorem parseBlocks_step (s t : List Char) (hno : containsSub s eMark = false) :
    parseBlocks (wrapBlock s ++ t) = trimChars s :: parseBlocks t := by
  have he17 : eMark.length = 17 := by decide
  have hW : wrapBlock s ++ t = bMark ++ ('\n' :: (s ++ '\n' :: (eMark ++ t))) := by
    simp [wrapBlock]
  have hystep : (s ++ '\n' :: (eMark ++ t)).drop (s.length + 1) = eMark ++ t := by
    simp
  have hdrop2 : ('\n' :: (s ++ '\n' :: (eMark ++ t))).drop (s.length + 2) = eMark ++ t := by
    have : s.length + 2 = (s.length + 1) + 1 := by omega
    rw [this, List.drop_succ_cons]
    exact hystep
  have hR1 : ('\n' :: (s ++ '\n' :: (eMark ++ t)))[s.length + 1]? = some '\n' := by
    rw [List.getElem?_cons_succ]
    rw [List.getElem?_append_right (by simp : s.length ≤ s.length)]
    simp
  have hfe : findSub eMark ('\n' :: (s ++ '\n' :: (eMark ++ t))) = some (s.length + 2) := by
    apply findSub_eq_some_iff.2
    constructor
    · rw [hdrop2]
      exact beginsWith_append _ _
    · intro k hk
      by_contra hbc
      rw [Bool.not_eq_false] at hbc
      rcases Nat.lt_or_ge (k + eMark.length) (s.length + 2) with hcase | hcase
      · cases k with
        | zero =>
            have h0 := beginsWith_getElem hbc (show 0 < eMark.length by decide)
            rw [List.drop_zero, List.getElem?_cons_zero] at h0
            have hdash : eMark[0]? = some '-' := by decide
            rw [hdash] at h0
            simp at h0
        | succ k' =>
            rw [List.drop_succ_cons] at hbc
            rw [List.drop_append_of_le_length (by omega)] at hbc
            have hin := beginsWith_of_append_le hbc
              (by simp only [List.length_drop]; omega)
            have hf := containsSub_false_iff.1 hno k'
            rw [hf] at hin
            simp at hin
      · have hjlt : s.length + 1 - k < eMark.length := by omega
        have hchar := beginsWith_getElem hbc hjlt
        rw [List.getElem?_drop] at hchar
        have hidx : k + (s.length + 1 - k) = s.length + 1 := by omega
        rw [hidx, hR1] at hchar
        have hmem : '\n' ∈ eMark := List.getElem?_mem hchar.symm
        exact absurd hmem (by decide)
  have hfb : findSub bMark (wrapBlock s ++ t) = some 0 := by
    rw [hW]
    exact findSub_zero (beginsWith_append _ _)
  have hdropb : (wrapBlock s ++ t).drop (0 + bMark.length)
      = '\n' :: (s ++ '\n' :: (eMark ++ t)) := by
    rw [hW, Nat.zero_add, List.drop_left]
  rw [parseBlocks_found hfb (by rw [hdropb]; exact hfe)]
  congr 1
  · rw [hdropb]
    have htake : ('\n' :: (s ++ '\n' :: (eMark ++ t))).take (s.length + 2)
        = '\n' :: (s ++ ['\n']) := by
      have h2 : s.length + 2 = (s.length + 1) + 1 := by omega
      rw [h2, List.take_succ_cons]
      have h : (s ++ '\n' :: (eMark ++ t)).take (s.length + 1) =
          s ++ ('\n' :: (eMark ++ t)).take 1 := List.take_append 1
      rw [h]
      simp
    rw [htake]
    rw [trim_cons_ws (by decide)]
    rw [trim_append_ws (by decide)]
  · rw [hdropb]
    have : ('\n' :: (s ++ '\n' :: (eMark ++ t))).drop (s.length + 2 + eMark.length)
        = t := by
      rw [← List.drop_drop, hdrop2, List.drop_left]
    rw [this]

/-- Joining wrapped results and re-parsing recovers every trimmed result,
in order (the sentinel delimiting protocol round-trips). -/
theorem parseBlocks_joinBlocks (ss : List (List Char))
    (hno : ∀ s ∈ ss, containsSub s eMark = false) :
    parseBlocks (joinBlocks ss) = ss.map trimChars := by
  induction ss with
  | nil => simp [joinBlocks, parseBlocks_nil]
  | cons s rest ih =>
      have hjoin : joinBlocks (s :: rest) = wrapBlock s ++ joinBlocks rest := by
        simp [joinBlocks]
      rw [hjoin, parseBlocks_step s _ (hno s (by simp))]
      rw [ih (fun x hx => hno x (by simp [hx]))]
      simp

/-- A response without any begin-then-end sentinel pair yields no matches. -/
theorem parseBlocks_eq_nil_of_no_pair {l : List Char} (h : hasPairB l = false) :
    parseBlocks l = [] := by
  cases hfb : findSub bMark l with
  | none => exact parseBlocks_no_begin hfb
  | some i =>
      cases hfe : findSub eMark (l.drop (i + bMark.length)) with
      | none => exact parseBlocks_no_end hfb hfe
      | some j =>
          exfalso
          have hbocc := (findSub_eq_some_iff.1 hfb).1
          have heocc := (findSub_eq_some_iff.1 hfe).1
          rw [List.drop_drop] at heocc
          have hblen := beginsWith_length hbocc
          have helen := beginsWith_length heocc
          simp only [List.length_drop] at hblen helen
          have hb20 : bMark.length = 20 := by decide
          have he17 : eMark.length = 17 := by decide
          have htrue : hasPairB l = true := by
            unfold hasPairB
            rw [List.any_eq_true]
            refine ⟨i, List.mem_range.2 (by omega), ?_⟩
            rw [Bool.and_eq_true]
            refine ⟨hbocc, ?_⟩
            rw [List.any_eq_true]
            refine ⟨i + bMark.length + j, List.mem_range.2 (by omega), ?_⟩
            rw [Bool.and_eq_true]
            exact ⟨heocc, by simp⟩
          rw [htrue] at h
          simp at h

theorem natDigitsGo_acc :
    ∀ fuel n acc, natDigitsGo fuel n acc = natDigitsGo fuel n [] ++ acc := by
  intro fuel
  induction fuel with
  | zero => intro n acc; rfl
  | succ f ih =>
      intro n acc
      by_cases h : n < 10
      · simp [natDigitsGo, h]
      · simp only [natDigitsGo, if_neg h]
        rw [ih (n / 10) (Nat.digitChar (n % 10) :: acc),
          ih (n / 10) [Nat.digitChar (n % 10)]]
        simp

theorem digitChar_val : ∀ d, d < 10 → (Nat.digitChar d).toNat - 48 = d := by
  decide

theorem valNat_append_digit (xs : List Char) (c : Char) :
    valNat (xs ++ [c]) = valNat xs * 10 + (c.toNat - 48) := by
  simp [valNat, List.foldl_append]

theorem valNat_natDigitsGo :
    ∀ fuel n, n < 10 ^ fuel → valNat (natDigitsGo fuel n []) = n := by
  intro fuel
  induction fuel with
  | zero =>
      intro n hn
      interval_cases n
      rfl
  | succ f ih =>
      intro n hn
      by_cases h : n < 10
      · simp only [natDigitsGo, if_pos h]
        have := digitChar_val n h
        simp [valNat, this]
      · simp only [natDigitsGo, if_neg h]
        rw [natDigitsGo_acc, valNat_append_digit]
        have hdiv : n / 10 < 10 ^ f := by
          rw [Nat.div_lt_iff_lt_mul (by omega)]
          calc n < 10 ^ (f + 1) := hn
            _ = 10 ^ f * 10 := by ring
        rw [ih (n / 10) hdiv, digitChar_val (n % 10) (Nat.mod_lt n (by omega))]
        omega

theorem valNat_natDigits (n : Nat) : valNat (natDigits n) = n := by
  apply valNat_natDigitsGo
  calc n < 10 ^ n := Nat.lt_pow_self (by omega) n
    _ ≤ 10 ^ (n + 1) := Nat.pow_le_pow_right (by omega) (by omega)

theorem natDigits_inj {a b : Nat} (h : natDigits a = natDigits b) : a = b := by
  have := congrArg valNat h
  rwa [valNat_natDigits, valNat_natDigits] at this

theorem natDigits_ne_nil (n : Nat) : natDigits n ≠ [] := by
  unfold natDigits
  by_cases h : n < 10
  · simp [natDigitsGo, h]
  · simp only [natDigitsGo, if_neg h]
    rw [natDigitsGo_acc]
    simp

theorem mkPath_inj {folder x y : List Char} (h : mkPath folder x = mkPath folder y) :
    x = y := by
  unfold mkPath at h
  by_cases hf : folder.isEmpty
  · simpa [hf] using h
  · rw [if_neg hf, if_neg hf] at h
    have := List.append_cancel_left h
    injection this

theorem seqFrom_inj {folder base : List Char} {current : List Char}
    {j k : Nat} (h : seqFrom folder base 1 current j = seqFrom folder base 1 current k)
    (hj0 : j ≠ 0 ∨ current = mkPath folder (base ++ mdExt))
    (hk0 : k ≠ 0 ∨ current = mkPath folder (base ++ mdExt)) : j = k := by
  cases j with
  | zero =>
      cases k with
      | zero => rfl
      | succ k' =>
          exfalso
          rcases hj0 with hj | hj
          · exact hj rfl
          · rw [hj] at h
            unfold seqFrom at h
            have := mkPath_inj h
            have hlen := congrArg List.length this
            simp only [List.length_append, List.length_cons] at hlen
            omega
  | succ j' =>
      cases k with
      | zero =>
          exfalso
          rcases hk0 with hk | hk
          · exact hk rfl
          · rw [hk] at h
            unfold seqFrom at h
            have := mkPath_inj h
            have hlen := congrArg List.length this
            simp only [List.length_append, List.length_cons] at hlen
            omega
      | succ k' =>
          unfold seqFrom at h
          have h1 := mkPath_inj h
          have h2 := List.append_cancel_right h1
          have h3 := List.append_cancel_left h2
          injection h3 with _ h4
          have := natDigits_inj h4
          omega

theorem seqFrom_shift (folder base : List Char) (counter : Nat)
    (current : List Char) (k : Nat) :
    seqFrom folder base (counter + 1)
        (mkPath folder (base ++ ' ' :: natDigits counter ++ mdExt)) k =
      seqFrom folder base counter current (k + 1) := by
  cases k with
  | zero => simp [seqFrom]
  | succ k' =>
      show mkPath folder (base ++ ' ' :: natDigits (counter + 1 + k') ++ mdExt) = _
      have : counter + 1 + k' = counter + (k' + 1) := by omega
      rw [this]
      rfl

theorem uniqueLoop_min (vault : List (List Char)) (folder base : List Char) :
    ∀ fuel counter current k₀,
      (∀ k, k < k₀ → seqFrom folder base counter current k ∈ vault) →
      seqFrom folder base counter current k₀ ∉ vault →
      k₀ < fuel →
      uniqueLoop vault folder base fuel counter current =
        seqFrom folder base counter current k₀ := by
  intro fuel
  induction fuel with
  | zero => intro counter current k₀ _ _ h; omega
  | succ f ih =>
      intro counter current k₀ hmem hnot hlt
      cases k₀ with
      | zero =>
          unfold seqFrom at hnot
          simp only [uniqueLoop, if_neg hnot]
          rfl
      | succ k₀' =>
          have hcur : current ∈ vault := by
            have := hmem 0 (by omega)
            simpa [seqFrom] using this
          simp only [uniqueLoop, if_pos hcur]
          rw [ih (counter + 1)
            (mkPath folder (base ++ ' ' :: natDigits counter ++ mdExt)) k₀'
            (fun k hk => by
              rw [seqFrom_shift folder base counter current k]
              exact hmem (k + 1) (by omega))
            (by rw [seqFrom_shift folder base counter current k₀']; exact hnot)
            (by omega)]
          rw [seqFrom_shift folder base counter current k₀']

/-- Some candidate within the first `vault.length + 1` steps is free:
the candidates are pairwise distinct, so they cannot all collide. -/
theorem seqFrom_exists_free (vault : List (List Char)) (folder name : List Char) :
    ∃ k, k ≤ vault.length ∧
      seqFrom folder name 1 (mkPath folder (name ++ mdExt)) k ∉ vault := by
  by_contra hall
  push_neg at hall
  set S := seqFrom folder name 1 (mkPath folder (name ++ mdExt)) with hS
  have hinj : Function.Injective S := by
    intro j k h
    apply seqFrom_inj h
    · right; rfl
    · right; rfl
  have hsub : (List.range (vault.length + 1)).map S ⊆ vault := by
    intro x hx
    rw [List.mem_map] at hx
    obtain ⟨k, hk, rfl⟩ := hx
    exact hall k (by simpa using Nat.lt_succ_iff.1 (List.mem_range.1 hk))
  have hnodup : ((List.range (vault.length + 1)).map S).Nodup :=
    (List.nodup_range _).map hinj
  have hsp := hnodup.subperm hsub
  have hlen := hsp.length_le
  simp at hlen

/-- Full characterization of the unique-name search: it returns the first
examined candidate that is not in the vault, and that candidate is reached
within `vault.length` steps. -/
theorem findUnique_spec (vault : List (List Char)) (folder name : List Char) :
    ∃ k, k ≤ vault.length ∧
      findUnique vault folder name =
        seqFrom folder name 1 (mkPath folder (name ++ mdExt)) k ∧
      seqFrom folder name 1 (mkPath folder (name ++ mdExt)) k ∉ vault ∧
      ∀ m, m < k →
        seqFrom folder name 1 (mkPath folder (name ++ mdExt)) m ∈ vault := by
  obtain ⟨w, hw, hwfree⟩ := seqFrom_exists_free vault folder name
  have hex : ∃ k, seqFrom folder name 1 (mkPath folder (name ++ mdExt)) k ∉ vault :=
    ⟨w, hwfree⟩
  classical
  refine ⟨Nat.find hex, ?_, ?_, Nat.find_spec hex, ?_⟩
  · exact le_trans (Nat.find_min' hex hwfree) hw
  · apply uniqueLoop_min
    · intro m hm
      have := Nat.find_min hex hm
      simpa using this
    · exact Nat.find_spec hex
    · have := le_trans (Nat.find_min' hex hwfree) hw
      omega
  · intro m hm
    have := Nat.find_min hex hm
    simpa using this

theorem findUnique_not_mem (vault : List (List Char)) (folder name : List Char) :
    findUnique vault folder name ∉ vault := by
  obtain ⟨k, _, heq, hfree, _⟩ := findUnique_spec vault folder name
  rw [heq]
  exact hfree

theorem fmtGo_nil (mfmt : List Char → List Char) (ctx : List (List Char × JValue)) :
    ∀ f, fmtGo mfmt ctx f [] = .ok [] := by
  intro f
  cases f <;> rfl

theorem fmtGo_congr (mfmt : List Char → List Char) (ctx : List (List Char × JValue)) :
    ∀ f₁ f₂ (l : List Char), l.length ≤ f₁ → l.length ≤ f₂ →
      fmtGo mfmt ctx f₁ l = fmtGo mfmt ctx f₂ l := by
  intro f₁
  induction f₁ with
  | zero =>
      intro f₂ l h1 _
      have : l = [] := List.eq_nil_of_length_eq_zero (by omega)
      subst this
      rw [fmtGo_nil, fmtGo_nil]
  | succ f ih =>
      intro f₂ l h1 h2
      cases l with
      | nil => rw [fmtGo_nil, fmtGo_nil]
      | cons c rest =>
          cases f₂ with
          | zero => simp at h2
          | succ f' =>
              simp only [fmtGo]
              by_cases hT : c = '\x7b' ∧ rest.head? = some '\x7b'
              · rw [if_pos hT, if_pos hT]
                cases hq : findCloser rest.tail with
                | some q =>
                    simp only
                    rw [ih f' (rest.tail.drop (q + 2))
                      (by
                        have := List.length_tail rest
                        simp only [List.length_drop] at *
                        simp only [List.length_cons] at h1
                        omega)
                      (by
                        have := List.length_tail rest
                        simp only [List.length_drop] at *
                        simp only [List.length_cons] at h2
                        omega)]
                | none =>
                    simp only
                    rw [ih f' rest
                      (by simp only [List.length_cons] at h1; omega)
                      (by simp only [List.length_cons] at h2; omega)]
              · rw [if_neg hT, if_neg hT]
                rw [ih f' rest
                  (by simp only [List.length_cons] at h1; omega)
                  (by simp only [List.length_cons] at h2; omega)]

theorem fmtT_nil (mfmt : List Char → List Char) (ctx : List (List Char × JValue)) :
    formatTemplate mfmt ctx [] = .ok [] := rfl

/-- A character that does not open a token passes through unchanged. -/
theorem fmtT_cons_nt {mfmt : List Char → List Char}
    {ctx : List (List Char × JValue)} {c : Char} {l : List Char}
    (hc : ¬(c = '\x7b' ∧ l.head? = some '\x7b')) :
    formatTemplate mfmt ctx (c :: l) =
      (formatTemplate mfmt ctx l).bind (fun tail => .ok (c :: tail)) := by
  show fmtGo mfmt ctx (l.length + 1) (c :: l) = _
  simp only [fmtGo, if_neg hc]
  rfl

/-- A token with a closer resolves and scanning resumes after the closer. -/
theorem fmtT_token {mfmt : List Char → List Char}
    {ctx : List (List Char × JValue)} {rest2 : List Char} {q : Nat}
    (hq : findCloser rest2 = some q) :
    formatTemplate mfmt ctx ('\x7b' :: '\x7b' :: rest2) =
      (evalToken mfmt ctx (rest2.take q)).bind (fun repl =>
        (formatTemplate mfmt ctx (rest2.drop (q + 2))).bind (fun tail =>
          .ok (repl ++ tail))) := by
  show fmtGo mfmt ctx (rest2.length + 1 + 1) ('\x7b' :: '\x7b' :: rest2) = _
  simp only [fmtGo, if_pos (⟨rfl, rfl⟩ : '\x7b' = '\x7b' ∧
    ('\x7b' :: rest2).head? = some '\x7b'), List.tail_cons, hq]
  rw [fmtGo_congr mfmt ctx (rest2.length + 1) ((rest2.drop (q + 2)).length)
    (rest2.drop (q + 2)) (by simp only [List.length_drop]; omega) (Nat.le_refl _)]
  rfl

/-- An unclosed `{{` emits one brace and rescans from the second brace. -/
theorem fmtT_token_none {mfmt : List Char → List Char}
    {ctx : List (List Char × JValue)} {rest2 : List Char}
    (hq : findCloser rest2 = none) :
    formatTemplate mfmt ctx ('\x7b' :: '\x7b' :: rest2) =
      (formatTemplate mfmt ctx ('\x7b' :: rest2)).bind (fun tail =>
        .ok ('\x7b' :: tail)) := by
  show fmtGo mfmt ctx (rest2.length + 1 + 1) ('\x7b' :: '\x7b' :: rest2) = _
  rw [fmtGo]
  rw [if_pos (⟨rfl, rfl⟩ : '\x7b' = '\x7b' ∧
    ('\x7b' :: rest2).head? = some '\x7b')]
  simp only [List.tail_cons, hq]
  rfl

/-- A brace-free prefix passes through the scanner verbatim. -/
theorem fmtT_append_free (mfmt : List Char → List Char)
    (ctx : List (List Char × JValue)) (pre l : List Char)
    (hpre : ∀ c ∈ pre, c ≠ '\x7b') :
    formatTemplate mfmt ctx (pre ++ l) =
      (formatTemplate mfmt ctx l).bind (fun tail => .ok (pre ++ tail)) := by
  induction pre with
  | nil =>
      simp only [List.nil_append]
      cases h : formatTemplate mfmt ctx l <;> simp [Except.bind, h]
  | cons c pre' ih =>
      have hc : c ≠ '\x7b' := hpre c (by simp)
      rw [List.cons_append]
      rw [fmtT_cons_nt (by simp [hc])]
      rw [ih (fun x hx => hpre x (by simp [hx]))]
      cases h : formatTemplate mfmt ctx l <;> simp [Except.bind, h]

/-- Scanning for the closer over newline-free, brace-free expression text
finds the `}}` right after it. -/
theorem findCloser_append (e t : List Char)
    (he : ∀ c ∈ e, c ≠ '\x7d' ∧ c ≠ '\n') :
    findCloser (e ++ '\x7d' :: '\x7d' :: t) = some e.length := by
  induction e with
  | nil => simp [findCloser]
  | cons c e' ih =>
      have hc := he c (by simp)
      rw [List.cons_append]
      simp only [findCloser]
      rw [if_neg (by simp [hc.1]), if_neg hc.2]
      rw [ih (fun x hx => (he x (by simp [hx])))]
      rfl

/-- When the path is none of the alias table's cases, the switch falls to the
default branch and yields the empty string. -/
theorem aliasEval_default {ctx : List (List Char × JValue)} {path : List Char}
    (h : path ∉ aliasPaths) : aliasEval ctx path = .ok (.jstr []) := by
  simp only [aliasPaths, List.mem_cons, List.not_mem_nil, or_false, not_or] at h
  obtain ⟨h1, h2, h3, h4, h5, h6, h7, h8, h9, h10, h11, h12, h13, h14, h15, h16,
    h17, h18, h19, h20, h21, h22, h23, h24, h25, h26⟩ := h
  unfold aliasEval
  rw [if_neg h1, if_neg h2, if_neg h3, if_neg h4, if_neg h5, if_neg h6,
    if_neg h7, if_neg h8, if_neg h9, if_neg h10, if_neg h11, if_neg h12,
    if_neg h13, if_neg h14, if_neg h15, if_neg h16, if_neg h17, if_neg h18,
    if_neg h19, if_neg h20, if_neg h21, if_neg h22, if_neg h23, if_neg h24,
    if_neg h25, if_neg h26]

/-- A token whose trimmed expression resolves neither as a date pattern nor
by dotted-path traversal nor through the alias table substitutes the empty
string. -/
theorem evalToken_unresolved (mfmt : List Char → List Char)
    (ctx : List (List Char × JValue)) (e : List Char)
    (hd : beginsWith ("date:").toList (trimChars e) = false)
    (hc : dateClassB (trimChars e) = false)
    (ht : pathWalk (.jobj ctx) (splitOnChar '.' (trimChars e)) = .ok .jundefined)
    (ha : trimChars e ∉ aliasPaths) :
    evalToken mfmt ctx e = .ok [] := by
  unfold evalToken
  simp only [hd, Bool.false_eq_true, if_false, hc]
  unfold getValue
  rw [ht]
  show (aliasEval ctx (trimChars e)).bind _ = _
  rw [aliasEval_default ha]
  rfl

theorem jTrim_some {v : JValue} {s : List Char} (h : jTrim v = .ok (some s)) :
    ∃ raw, s = trimChars raw := by
  cases v <;> simp [jTrim] at h
  exact ⟨_, h.symm⟩

theorem jlookup_cons_eq (k : List Char) (v : JValue)
    (rest : List (List Char × JValue)) : jlookup ((k, v) :: rest) k = some v := by
  simp [jlookup]

theorem jlookup_cons_ne {k key : List Char} (v : JValue)
    (rest : List (List Char × JValue)) (h : k ≠ key) :
    jlookup ((k, v) :: rest) key = jlookup rest key := by
  simp [jlookup, h]

theorem jlookup_skip3 (pv mv prv : JValue) (X : List (List Char × JValue))
    {key : List Char}
    (h1 : ("provider").toList ≠ key) (h2 : ("model").toList ≠ key)
    (h3 : ("prompt").toList ≠ key) :
    jlookup ((("provider").toList, pv) :: (("model").toList, mv) ::
      (("prompt").toList, prv) :: X) key = jlookup X key := by
  rw [jlookup_cons_ne _ _ h1, jlookup_cons_ne _ _ h2, jlookup_cons_ne _ _ h3]

/-- The single-mode composition of `applyFormatting` (a single-string content
never takes the batch branch, whatever the context holds). -/
theorem applyFormatting_single_content (mfmt : List Char → List Char)
    (st : FmtSettings) (ctx : List (List Char × JValue)) (body : List Char) :
    applyFormatting mfmt st (.single body) ctx =
      (formatTemplate mfmt ctx st.headerTemplate).bind (fun h =>
        (formatTemplate mfmt ctx st.footerTemplate).bind (fun f =>
          .ok (joinTruthy [h, body, f]))) := by
  unfold applyFormatting
  cases hj : jlookup ctx (("images").toList) with
  | none => rfl
  | some v => cases v <;> rfl

theorem joinTruthy_body (body : List Char) : joinTruthy [[], body, []] = body := by
  cases body <;> simp [joinTruthy]

/-- Claim C8 (amended): `buildOCRContext` never sets both `image` and
`images`; it sets `images` exactly when more than one descriptor is passed in
the `images` argument, and `image` exactly when that fails but a single
descriptor is available; with no descriptors it sets neither.  When `images`
is absent from a context, `applyFormatting` always composes in single mode. -/
theorem buildOCRContext_mode (pid pname ptype mid mname prompt : List Char)
    (images : Option (List BImg)) (single : Option (List (List Char × JValue))) :
    ¬((jlookup (buildOCRContext pid pname ptype mid mname prompt images single)
          (("image").toList)).isSome = true ∧
        (jlookup (buildOCRContext pid pname ptype mid mname prompt images single)
          (("images").toList)).isSome = true) ∧
    ((jlookup (buildOCRContext pid pname ptype mid mname prompt images single)
        (("images").toList)).isSome = true ↔
      ∃ l, images = some l ∧ 1 < l.length) ∧
    ((jlookup (buildOCRContext pid pname ptype mid mname prompt images single)
        (("image").toList)).isSome = true ↔
      (¬(∃ l, images = some l ∧ 1 < l.length) ∧
        (single.isSome = true ∨ ∃ l, images = some l ∧ l.length = 1))) := by
  rcases images with _ | l
  · rcases single with _ | s
    · have him : jlookup (buildOCRContext pid pname ptype mid mname prompt none none)
          (("image").toList) = none := by
        simp only [buildOCRContext]
        rw [jlookup_skip3 _ _ _ _ (by decide) (by decide) (by decide)]
        rfl
      have hims : jlookup (buildOCRContext pid pname ptype mid mname prompt none none)
          (("images").toList) = none := by
        simp only [buildOCRContext]
        rw [jlookup_skip3 _ _ _ _ (by decide) (by decide) (by decide)]
        rfl
      refine ⟨?_, ?_, ?_⟩
      · rw [him, hims]; simp
      · rw [hims]; simp
      · rw [him]; simp
    · have him : jlookup
          (buildOCRContext pid pname ptype mid mname prompt none (some s))
          (("image").toList) = some (.jobj s) := by
        simp only [buildOCRContext, List.cons_append, List.nil_append]
        rw [jlookup_skip3 _ _ _ _ (by decide) (by decide) (by decide)]
        exact jlookup_cons_eq _ _ _
      have hims : jlookup
          (buildOCRContext pid pname ptype mid mname prompt none (some s))
          (("images").toList) = none := by
        simp only [buildOCRContext, List.cons_append, List.nil_append]
        rw [jlookup_skip3 _ _ _ _ (by decide) (by decide) (by decide)]
        rw [jlookup_cons_ne _ _ (by decide)]
        rfl
      refine ⟨?_, ?_, ?_⟩
      · rw [him, hims]; simp
      · rw [hims]; simp
      · rw [him]; simp
  · rcases l with _ | ⟨b, l'⟩
    · rcases single with _ | s
      · have him : jlookup
            (buildOCRContext pid pname ptype mid mname prompt (some []) none)
            (("image").toList) = none := by
          simp only [buildOCRContext]
          rw [if_neg (by simp)]
          rw [jlookup_skip3 _ _ _ _ (by decide) (by decide) (by decide)]
          rfl
        have hims : jlookup
            (buildOCRContext pid pname ptype mid mname prompt (some []) none)
            (("images").toList) = none := by
          simp only [buildOCRContext]
          rw [if_neg (by simp)]
          rw [jlookup_skip3 _ _ _ _ (by decide) (by decide) (by decide)]
          rfl
        refine ⟨?_, ?_, ?_⟩
        · rw [him, hims]; simp
        · rw [hims]; simp
        · rw [him]; simp
      · have him : jlookup
            (buildOCRContext pid pname ptype mid mname prompt (some []) (some s))
            (("image").toList) = some (.jobj s) := by
          simp only [buildOCRContext, List.cons_append, List.nil_append]
          rw [if_neg (by simp)]
          rw [jlookup_skip3 _ _ _ _ (by decide) (by decide) (by decide)]
          exact jlookup_cons_eq _ _ _
        have hims : jlookup
            (buildOCRContext pid pname ptype mid mname prompt (some []) (some s))
            (("images").toList) = none := by
          simp only [buildOCRContext, List.cons_append, List.nil_append]
          rw [if_neg (by simp)]
          rw [jlookup_skip3 _ _ _ _ (by decide) (by decide) (by decide)]
          rw [jlookup_cons_ne _ _ (by decide)]
          rfl
        refine ⟨?_, ?_, ?_⟩
        · rw [him, hims]; simp
        · rw [hims]; simp
        · rw [him]; simp
    · rcases l' with _ | ⟨b2, l''⟩
      · rcases single with _ | s
        · have him : jlookup
              (buildOCRContext pid pname ptype mid mname prompt (some [b]) none)
              (("image").toList) = some (bimgSpreadJ b) := by
            simp only [buildOCRContext, List.cons_append, List.nil_append]
            rw [if_neg (by simp)]
            rw [jlookup_skip3 _ _ _ _ (by decide) (by decide) (by decide)]
            exact jlookup_cons_eq _ _ _
          have hims : jlookup
              (buildOCRContext pid pname ptype mid mname prompt (some [b]) none)
              (("images").toList) = none := by
            simp only [buildOCRContext, List.cons_append, List.nil_append]
            rw [if_neg (by simp)]
            rw [jlookup_skip3 _ _ _ _ (by decide) (by decide) (by decide)]
            rw [jlookup_cons_ne _ _ (by decide)]
            rfl
          refine ⟨?_, ?_, ?_⟩
          · rw [him, hims]; simp
          · rw [hims]; simp
          · rw [him]; simp
        · have him : jlookup
              (buildOCRContext pid pname ptype mid mname prompt (some [b]) (some s))
              (("image").toList) = some (.jobj s) := by
            simp only [buildOCRContext, List.cons_append, List.nil_append]
            rw [if_neg (by simp)]
            rw [jlookup_skip3 _ _ _ _ (by decide) (by decide) (by decide)]
            exact jlookup_cons_eq _ _ _
          have hims : jlookup
              (buildOCRContext pid pname ptype mid mname prompt (some [b]) (some s))
              (("images").toList) = none := by
            simp only [buildOCRContext, List.cons_append, List.nil_append]
            rw [if_neg (by simp)]
            rw [jlookup_skip3 _ _ _ _ (by decide) (by decide) (by decide)]
            rw [jlookup_cons_ne _ _ (by decide)]
            rfl
          refine ⟨?_, ?_, ?_⟩
          · rw [him, hims]; simp
          · rw [hims]; simp
          · rw [him]; simp
      · have hlen : 1 < (b :: b2 :: l'').length := by
          simp only [List.length_cons]
          omega
        have him : jlookup
            (buildOCRContext pid pname ptype mid mname prompt
              (some (b :: b2 :: l'')) single)
            (("image").toList) = none := by
          simp only [buildOCRContext, List.cons_append, List.nil_append]
          rw [if_pos hlen]
          rw [jlookup_skip3 _ _ _ _ (by decide) (by decide) (by decide)]
          rw [jlookup_cons_ne _ _ (by decide)]
          rfl
        have hims : jlookup
            (buildOCRContext pid pname ptype mid mname prompt
              (some (b :: b2 :: l'')) single)
            (("images").toList) =
              some (.jarr (mapIdxFrom (bimgEntryJ (b :: b2 :: l'').length) 0
                (b :: b2 :: l''))) := by
          simp only [buildOCRContext, List.cons_append, List.nil_append]
          rw [if_pos hlen]
          rw [jlookup_skip3 _ _ _ _ (by decide) (by decide) (by decide)]
          exact jlookup_cons_eq _ _ _
        refine ⟨?_, ?_, ?_⟩
        · rw [him, hims]; simp
        · rw [hims]; simp
        · rw [him]; simp

theorem buildCtx_single_image (pid pname ptype mid mname prompt : List Char)
    (srec : List (List Char × JValue)) :
    jlookup (buildOCRContext pid pname ptype mid mname prompt none (some srec))
        (("image").toList) = some (.jobj srec) ∧
    jlookup (buildOCRContext pid pname ptype mid mname prompt none (some srec))
        (("images").toList) = none := by
  constructor
  · simp only [buildOCRContext, List.cons_append, List.nil_append]
    rw [jlookup_skip3 _ _ _ _ (by decide) (by decide) (by decide)]
    exact jlookup_cons_eq _ _ _
  · simp only [buildOCRContext, List.cons_append, List.nil_append]
    rw [jlookup_skip3 _ _ _ _ (by decide) (by decide) (by decide)]
    rw [jlookup_cons_ne _ _ (by decide)]
    rfl

theorem pimgSingleRec_noIdx (prepared : List PImg) :
    jlookup (pimgSingleRec prepared) (("index").toList) = none ∧
    jlookup (pimgSingleRec prepared) (("total").toList) = none := by
  cases prepared with
  | nil => exact ⟨rfl, rfl⟩
  | cons p ps => exact ⟨rfl, rfl⟩

/-- The single-mode arm of the folder-OCR command: when the parsed matches
are not more than one, the result is single content plus a context built
from the `prepared[0]?`-derived descriptor. -/
theorem extractFolder_le_one (response : List Char) (prepared : List PImg)
    (pid pname ptype mid mname bprompt : List Char)
    (h : ¬ 1 < (parseBlocks response).length) :
    extractFolderResult response prepared pid pname ptype mid mname bprompt =
      (.single (match parseBlocks response with
        | [m] => m
        | _ => trimChars response),
        buildOCRContext pid pname ptype mid mname bprompt none
          (some (pimgSingleRec prepared))) := by
  unfold extractFolderResult
  rw [if_neg h]

/-- Claim C1: joining K ≥ 2 result strings, each wrapped between the literal
begin/end sentinel lines and none containing a sentinel, then running the
orchestrator's sentinel parser over the joined response recovers exactly K
strings — the trimmed originals, in submission order. -/
theorem claim_c1_batch_roundtrip (ss : List (List Char))
    (_hK : 2 ≤ ss.length)
    (_hnb : ∀ s ∈ ss, containsSub s bMark = false)
    (hne : ∀ s ∈ ss, containsSub s eMark = false) :
    parseBlocks (joinBlocks ss) = ss.map trimChars ∧
    (parseBlocks (joinBlocks ss)).length = ss.length := by
  have h := parseBlocks_joinBlocks ss hne
  refine ⟨h, ?_⟩
  rw [h, List.length_map]

theorem claim_c1_witness :
    2 ≤ ([("a b").toList, ("c").toList] : List (List Char)).length ∧
    parseBlocks (joinBlocks [("a b").toList, ("c").toList]) =
      ([("a b").toList, ("c").toList] : List (List Char)).map trimChars :=
  ⟨by decide,
    (claim_c1_batch_roundtrip [("a b").toList, ("c").toList]
      (by decide) (by decide) (by decide)).1⟩

/-- Claim C2 counterexample: a response with exactly one sentinel pair and
three submitted images produces a single-image context whose `image` record
has no `index` or `total` field at all, whereas the claim asserts it carries
`index = 1` and `total = 1`. -/
theorem claim_c2_counterexample :
    (parseBlocks sampleResponse).length = 1 ∧
    jlookup ((extractFolderResult sampleResponse samplePrepared
        [] [] [] [] [] []).2) (("image").toList) =
      some (.jobj (pimgSingleRec samplePrepared)) ∧
    jlookup (pimgSingleRec samplePrepared) (("index").toList) = none ∧
    jlookup (pimgSingleRec samplePrepared) (("total").toList) = none := by
  refine ⟨by rfl, by rfl, rfl, rfl⟩

/-- Claim C2 (amended): a provider response containing exactly one sentinel
pair — however many images were submitted — makes the batch pipeline build a
single-image formatting context: the content is the lone trimmed match, the
context carries an `image` record copied verbatim from the first prepared
image's descriptor (with no `index`/`total` annotations) and no `images`
field, so single-image templates apply downstream. -/
theorem claim_c2_single_degradation (response : List Char) (prepared : List PImg)
    (pid pname ptype mid mname bprompt : List Char)
    (h1 : (parseBlocks response).length = 1) :
    ∃ m, parseBlocks response = [m] ∧
      extractFolderResult response prepared pid pname ptype mid mname bprompt =
        (.single m, buildOCRContext pid pname ptype mid mname bprompt none
          (some (pimgSingleRec prepared))) ∧
      jlookup (extractFolderResult response prepared pid pname ptype mid mname
          bprompt).2 (("image").toList) = some (.jobj (pimgSingleRec prepared)) ∧
      jlookup (pimgSingleRec prepared) (("index").toList) = none ∧
      jlookup (pimgSingleRec prepared) (("total").toList) = none ∧
      jlookup (extractFolderResult response prepared pid pname ptype mid mname
          bprompt).2 (("images").toList) = none := by
  obtain ⟨m, hm⟩ : ∃ m, parseBlocks response = [m] := by
    cases hpb : parseBlocks response with
    | nil => rw [hpb] at h1; simp at h1
    | cons a t =>
        cases t with
        | nil => exact ⟨a, rfl⟩
        | cons b t' => rw [hpb] at h1; simp at h1
  have hred := extractFolder_le_one response prepared pid pname ptype mid mname
    bprompt (by rw [hm]; simp)
  rw [hm] at hred
  refine ⟨m, hm, by rw [hred], ?_, (pimgSingleRec_noIdx prepared).1,
    (pimgSingleRec_noIdx prepared).2, ?_⟩
  · rw [hred]
    exact (buildCtx_single_image _ _ _ _ _ _ _).1
  · rw [hred]
    exact (buildCtx_single_image _ _ _ _ _ _ _).2

theorem claim_c2_witness :
    (parseBlocks sampleResponse).length = 1 ∧
    ∃ m, parseBlocks sampleResponse = [m] ∧
      extractFolderResult sampleResponse samplePrepared [] [] [] [] [] [] =
        (.single m, buildOCRContext [] [] [] [] [] [] none
          (some (pimgSingleRec samplePrepared))) ∧
      jlookup (extractFolderResult sampleResponse samplePrepared
          [] [] [] [] [] []).2 (("image").toList) =
        some (.jobj (pimgSingleRec samplePrepared)) ∧
      jlookup (pimgSingleRec samplePrepared) (("index").toList) = none ∧
      jlookup (pimgSingleRec samplePrepared) (("total").toList) = none ∧
      jlookup (extractFolderResult sampleResponse samplePrepared
          [] [] [] [] [] []).2 (("images").toList) = none :=
  ⟨by rfl,
    claim_c2_single_degradation sampleResponse samplePrepared
      [] [] [] [] [] [] (by rfl)⟩

/-- Claim C3: a provider response with no sentinel pair makes the
orchestrator use the entire trimmed response as the one single-image result
and proceed in single-image mode (image context present, no images array);
no error path is taken. -/
theorem claim_c3_zero_match_fallback (response : List Char) (prepared : List PImg)
    (pid pname ptype mid mname bprompt : List Char)
    (h : hasPairB response = false) :
    extractFolderResult response prepared pid pname ptype mid mname bprompt =
      (.single (trimChars response),
        buildOCRContext pid pname ptype mid mname bprompt none
          (some (pimgSingleRec prepared))) ∧
    jlookup (extractFolderResult response prepared pid pname ptype mid mname
        bprompt).2 (("image").toList) = some (.jobj (pimgSingleRec prepared)) ∧
    jlookup (extractFolderResult response prepared pid pname ptype mid mname
        bprompt).2 (("images").toList) = none := by
  have hpb := parseBlocks_eq_nil_of_no_pair h
  have hred := extractFolder_le_one response prepared pid pname ptype mid mname
    bprompt (by rw [hpb]; simp)
  rw [hpb] at hred
  refine ⟨by rw [hred], ?_, ?_⟩
  · rw [hred]
    exact (buildCtx_single_image _ _ _ _ _ _ _).1
  · rw [hred]
    exact (buildCtx_single_image _ _ _ _ _ _ _).2

theorem claim_c3_witness :
    hasPairB (("no markers here").toList) = false ∧
    extractFolderResult (("no markers here").toList) samplePrepared
        [] [] [] [] [] [] =
      (.single (trimChars (("no markers here").toList)),
        buildOCRContext [] [] [] [] [] [] none
          (some (pimgSingleRec samplePrepared))) :=
  ⟨by decide,
    (claim_c3_zero_match_fallback (("no markers here").toList) samplePrepared
      [] [] [] [] [] [] (by decide)).1⟩

/-- Claim C4: in file-output mode with append disabled, when a file already
exists at the templated path `name.md`, the output router creates the first
candidate `name N.md` (N = 1, 2, …) whose path has no existing file — so
`Foo 1.md` when free, else `Foo 2.md`, and so on — and never overwrites an
existing file. -/
theorem claim_c4_unique_name (vault : List (List Char)) (folder name : List Char)
    (hex : mkPath folder (name ++ mdExt) ∈ vault) :
    ∃ N, 1 ≤ N ∧
      outputPlan vault false folder name = .createNew (candPath folder name N) ∧
      candPath folder name N ∉ vault ∧
      ∀ m, 1 ≤ m → m < N → candPath folder name m ∈ vault := by
  obtain ⟨k, hk, heq, hfree, hmin⟩ := findUnique_spec vault folder name
  have hk0 : k ≠ 0 := by
    intro h0
    rw [h0] at hfree
    exact hfree hex
  obtain ⟨N, rfl⟩ : ∃ N, k = N + 1 := ⟨k - 1, by omega⟩
  have hcand : seqFrom folder name 1 (mkPath folder (name ++ mdExt)) (N + 1)
      = candPath folder name (N + 1) := by
    show mkPath folder (name ++ ' ' :: natDigits (1 + N) ++ mdExt) = _
    rw [Nat.add_comm 1 N]
    rfl
  refine ⟨N + 1, by omega, ?_, ?_, ?_⟩
  · have hplan : outputPlan vault false folder name =
        .createNew (findUnique vault folder name) := by
      unfold outputPlan
      simp only [if_pos hex]
      rfl
    rw [hplan, heq, hcand]
  · rw [← hcand]
    exact hfree
  · intro m h1m hmN
    obtain ⟨j, rfl⟩ : ∃ j, m = j + 1 := ⟨m - 1, by omega⟩
    have hj := hmin (j + 1) (by omega)
    have hc : seqFrom folder name 1 (mkPath folder (name ++ mdExt)) (j + 1)
        = candPath folder name (j + 1) := by
      show mkPath folder (name ++ ' ' :: natDigits (1 + j) ++ mdExt) = _
      rw [Nat.add_comm 1 j]
      rfl
    rw [← hc]
    exact hj

theorem claim_c4_witness :
    mkPath [] ((("Foo").toList) ++ mdExt) ∈
      ([("Foo.md").toList, ("Foo 1.md").toList] : List (List Char)) ∧
    ∃ N, 1 ≤ N ∧
      outputPlan [("Foo.md").toList, ("Foo 1.md").toList] false [] (("Foo").toList) =
        .createNew (candPath [] (("Foo").toList) N) ∧
      candPath [] (("Foo").toList) N ∉
        ([("Foo.md").toList, ("Foo 1.md").toList] : List (List Char)) ∧
      ∀ m, 1 ≤ m → m < N →
        candPath [] (("Foo").toList) m ∈
          ([("Foo.md").toList, ("Foo 1.md").toList] : List (List Char)) :=
  ⟨by decide,
    claim_c4_unique_name [("Foo.md").toList, ("Foo 1.md").toList] []
      (("Foo").toList) (by decide)⟩

/-- Claim C10: for every finite set of existing paths, every base name and
every folder, the collision-resolution loop terminates — it settles on a
candidate within `vault.length` steps of the candidate sequence — and the
path it returns is not a member of the existing-path set. -/
theorem claim_c10_unique_termination (vault : List (List Char))
    (folder name : List Char) :
    (∃ k, k ≤ vault.length ∧
      findUnique vault folder name =
        seqFrom folder name 1 (mkPath folder (name ++ mdExt)) k) ∧
    findUnique vault folder name ∉ vault := by
  obtain ⟨k, hk, heq, hfree, _⟩ := findUnique_spec vault folder name
  exact ⟨⟨k, hk, heq⟩, heq ▸ hfree⟩

theorem claim_c10_witness :
    findUnique [("a.md").toList] [] (("a").toList) ∉
      ([("a.md").toList] : List (List Char)) :=
  (claim_c10_unique_termination [("a.md").toList] [] (("a").toList)).2

theorem openaiExtract_trimmed {tag : ProviderTag} {d : JValue} {s : List Char}
    (h : openaiExtract tag d = .ok (some s)) : ∃ raw, s = trimChars raw := by
  cases tag with
  | ollama =>
      simp only [openaiExtract] at h
      cases hg : jPlainGet d (("message").toList) with
      | error e => rw [hg] at h; exact Except.noConfusion h
      | ok m => rw [hg] at h; exact jTrim_some h
  | openai =>
      simp only [openaiExtract] at h
      cases hg : jPlainGet d (("choices").toList) with
      | error e => rw [hg] at h; exact Except.noConfusion h
      | ok c => rw [hg] at h; exact jTrim_some h
  | lmstudio =>
      simp only [openaiExtract] at h
      cases hg : jPlainGet d (("choices").toList) with
      | error e => rw [hg] at h; exact Except.noConfusion h
      | ok c => rw [hg] at h; exact jTrim_some h

theorem geminiExtract_trimmed {d : JValue} {s : List Char}
    (h : geminiExtract d = .ok (some s)) : ∃ raw, s = trimChars raw := by
  simp only [geminiExtract] at h
  cases hg : jPlainGet d (("candidates").toList) with
  | error e => rw [hg] at h; exact Except.noConfusion h
  | ok c =>
      rw [hg] at h
      replace h : (jIndex0 c).bind
          (fun e0 => jTrim (optGet (optIndex0 (optGet (optGet e0
            (("content").toList)) (("parts").toList))) (("text").toList))) =
          Except.ok (some s) := h
      cases hi : jIndex0 c with
      | error e => rw [hi] at h; exact Except.noConfusion h
      | ok e0 =>
          rw [hi] at h
          exact jTrim_some h

/-- Claim C5: for every abstracted transport/response outcome, both
provider `process` implementations resolve with a string and never
propagate an exception past their catch-all: on any failure — network
error or non-2xx (the request threw), malformed JSON, a failed or thrown
structural predicate, a thrown extraction, or missing/empty content — the
result is the empty string with a diagnostic logged, and otherwise it is
the non-empty trimmed extracted content with no failure diagnostic. -/
theorem claim_c5_provider_failure :
    (∀ (tag : ProviderTag) (o : WireOutcome),
      openaiProcessResult tag o = ([], true) ∨
      ∃ s, openaiProcessResult tag o = (s, false) ∧ s ≠ [] ∧
        (∃ raw, s = trimChars raw) ∧
        ∃ d, o = .parsed d ∧ openaiValidB tag d = .ok true ∧
          openaiExtract tag d = .ok (some s)) ∧
    (∀ o : WireOutcome,
      geminiProcessResult o = ([], true) ∨
      ∃ s, geminiProcessResult o = (s, false) ∧ s ≠ [] ∧
        (∃ raw, s = trimChars raw) ∧
        ∃ d, o = .parsed d ∧ geminiValidB d = .ok true ∧
          geminiExtract d = .ok (some s)) := by
  constructor
  · intro tag o
    cases o with
    | netfail => left; rfl
    | malformed => left; rfl
    | parsed d =>
        cases hv : openaiValidB tag d with
        | error e => left; simp [openaiProcessResult, hv]
        | ok b =>
            cases b with
            | false => left; simp [openaiProcessResult, hv]
            | true =>
                cases hx : openaiExtract tag d with
                | error e => left; simp [openaiProcessResult, hv, hx]
                | ok oc =>
                    cases oc with
                    | none => left; simp [openaiProcessResult, hv, hx]
                    | some s =>
                        by_cases hse : s = []
                        · left
                          simp [openaiProcessResult, hv, hx, hse]
                        · right
                          have hise : s.isEmpty = false := by
                            cases s with
                            | nil => exact absurd rfl hse
                            | cons c cs => rfl
                          refine ⟨s, ?_, hse, openaiExtract_trimmed hx,
                            d, rfl, hv, hx⟩
                          simp [openaiProcessResult, hv, hx, hise]
  · intro o
    cases o with
    | netfail => left; rfl
    | malformed => left; rfl
    | parsed d =>
        cases hv : geminiValidB d with
        | error e => left; simp [geminiProcessResult, hv]
        | ok b =>
            cases b with
            | false => left; simp [geminiProcessResult, hv]
            | true =>
                cases hx : geminiExtract d with
                | error e => left; simp [geminiProcessResult, hv, hx]
                | ok oc =>
                    cases oc with
                    | none => left; simp [geminiProcessResult, hv, hx]
                    | some s =>
                        by_cases hse : s = []
                        · left
                          simp [geminiProcessResult, hv, hx, hse]
                        · right
                          have hise : s.isEmpty = false := by
                            cases s with
                            | nil => exact absurd rfl hse
                            | cons c cs => rfl
                          refine ⟨s, ?_, hse, geminiExtract_trimmed hx,
                            d, rfl, hv, hx⟩
                          simp [geminiProcessResult, hv, hx, hise]

/-- Claim C7: for any credential value, including the empty string, the
requests produced for the local `ollama` and `lmstudio` backends contain no
`Authorization` header at all, while the hosted `openai` backend's request
carries the bearer `Authorization` header built from the credential. -/
theorem claim_c7_auth_isolation :
    ∀ key : List Char,
      ((requestHeaders .ollama key).all
        (fun h => h.1 != ("Authorization").toList)) = true ∧
      ((requestHeaders .lmstudio key).all
        (fun h => h.1 != ("Authorization").toList)) = true ∧
      ((requestHeaders .openai key).any
        (fun h => h.1 == ("Authorization").toList &&
          h.2 == ("Bearer ").toList ++ key)) = true := by
  intro key
  refine ⟨rfl, rfl, ?_⟩
  simp [requestHeaders]

/-- Claim C8 counterexample: `buildOCRContext` invoked with neither an
`images` array nor a `singleImage` descriptor returns the bare base context
containing neither field, whereas the claim asserts every produced context
has exactly one of them. -/
theorem claim_c8_counterexample :
    jlookup (buildOCRContext [] [] [] [] [] [] none none)
      (("image").toList) = none ∧
    jlookup (buildOCRContext [] [] [] [] [] [] none none)
      (("images").toList) = none :=
  ⟨rfl, rfl⟩

theorem claim_c8_witness :
    (jlookup (buildOCRContext [] [] [] [] [] [] none (some []))
      (("image").toList)).isSome = true :=
  (buildOCRContext_mode [] [] [] [] [] [] none (some [])).2.2.mpr
    ⟨by simp, Or.inl rfl⟩

/-- Claim C6 counterexample: `formatTemplate` throws a TypeError on the
template `{{prompt.x}}` against the context `{prompt: "hi"}` — the dotted
traversal applies the `in` operator to a truthy primitive — whereas the
claim asserts it terminates without throwing for every template and
context. -/
theorem claim_c6_counterexample :
    formatTemplate id [(("prompt").toList, .jstr (("hi").toList))]
      (tokenOf (("prompt.x").toList)) = .error () := by
  rfl

/-- Claim C6 (amended): `formatTemplate` is total on the model, and every
`{{expr}}` token whose trimmed expression is not a `date:` form, not a bare
date pattern, whose dotted-path traversal comes back undefined without
touching a truthy primitive, and which is none of the alias table's paths,
is replaced by the empty string; template text around it is preserved.  A
dotted path that drills into a truthy primitive throws a TypeError instead
(see the counterexample). -/
theorem claim_c6_unresolved_token (mfmt : List Char → List Char)
    (ctx : List (List Char × JValue)) (pre e post : List Char)
    (hpre : ∀ c ∈ pre, c ≠ '\x7b')
    (he : ∀ c ∈ e, c ≠ '\x7d' ∧ c ≠ '\n')
    (hd : beginsWith (("date:").toList) (trimChars e) = false)
    (hc : dateClassB (trimChars e) = false)
    (ht : pathWalk (.jobj ctx) (splitOnChar '.' (trimChars e)) = .ok .jundefined)
    (ha : trimChars e ∉ aliasPaths) :
    formatTemplate mfmt ctx (pre ++ tokenOf e ++ post) =
      (formatTemplate mfmt ctx post).map (fun tail => pre ++ tail) := by
  have hassoc : pre ++ tokenOf e ++ post =
      pre ++ ('\x7b' :: '\x7b' :: (e ++ '\x7d' :: '\x7d' :: post)) := by
    simp [tokenOf]
  rw [hassoc, fmtT_append_free mfmt ctx pre _ hpre]
  rw [fmtT_token (findCloser_append e post he)]
  have htake : (e ++ '\x7d' :: '\x7d' :: post).take e.length = e :=
    List.take_left e _
  have hdrop : (e ++ '\x7d' :: '\x7d' :: post).drop (e.length + 2) = post := by
    rw [List.drop_append]
    rfl
  rw [htake, hdrop]
  rw [evalToken_unresolved mfmt ctx e hd hc ht ha]
  cases hpost : formatTemplate mfmt ctx post <;>
    simp [Except.bind, Except.map, hpost]

theorem claim_c6_witness :
    pathWalk (.jobj []) (splitOnChar '.' (trimChars (("foo").toList))) =
      .ok .jundefined ∧
    trimChars (("foo").toList) ∉ aliasPaths ∧
    formatTemplate id []
        ((("a").toList) ++ tokenOf (("foo").toList) ++ (("b").toList)) =
      (formatTemplate id [] (("b").toList)).map
        (fun tail => (("a").toList) ++ tail) :=
  ⟨rfl, by decide,
    claim_c6_unresolved_token id [] (("a").toList) (("foo").toList)
      (("b").toList) (by decide) (by decide) (by decide) (by decide) rfl
      (by decide)⟩

/-- Claim C9 counterexample: a header template of a single space resolves to
a string that is empty after trim, yet single-mode formatting prepends it to
the body — the output is not identical to the unformatted body — whereas the
claim asserts segments empty after trim are omitted entirely. -/
theorem claim_c9_counterexample :
    applyFormatting id { headerTemplate := ((" ").toList) }
        (.single (("X").toList)) [] = .ok ((" X").toList) ∧
    formatTemplate id [] ((" ").toList) = .ok ((" ").toList) ∧
    trimChars ((" ").toList) = [] ∧
    (((" X").toList) : List Char) ≠ (("X").toList) := by
  refine ⟨by rfl, by rfl, by rfl, by decide⟩

/-- Claim C9 (amended): single-mode formatting with header and footer
templates that resolve to the empty string yields output identical to the
unformatted body — exactly-empty segments are dropped and no separators are
introduced.  (Segments that are merely empty after trimming are kept
verbatim; see the counterexample.) -/
theorem claim_c9_empty_formatting (mfmt : List Char → List Char)
    (st : FmtSettings) (ctx : List (List Char × JValue)) (body : List Char)
    (hH : formatTemplate mfmt ctx st.headerTemplate = .ok [])
    (hF : formatTemplate mfmt ctx st.footerTemplate = .ok []) :
    applyFormatting mfmt st (.single body) ctx = .ok body := by
  rw [applyFormatting_single_content, hH, hF]
  show Except.ok (joinTruthy [[], body, []]) = _
  rw [joinTruthy_body]

theorem claim_c9_witness :
    formatTemplate id [] (({} : FmtSettings).headerTemplate) = .ok [] ∧
    applyFormatting id {} (.single (("B").toList)) [] = .ok (("B").toList) :=
  ⟨rfl, claim_c9_empty_formatting id {} [] (("B").toList) rfl rfl⟩
